import Mathlib

/-!
# Nachos machine emulation: replacement engine, TLB refill, register file, exceptions

A shallow embedding of `code/machine/machine.cc`.

* A C++ `int` is an `Int` of the 32-bit two's-complement range; the only
  arithmetic in the embedded functions is `num + 1`, reduced by `wrapInt`.
* An array reached through a pointer is a `List`; an access outside the list
  makes the function return `none`.
* The preprocessor switches and the constants of `machine.h` are the fields of
  `Config`.
-/

namespace Nachos

/-! ## Machine integers -/

/-- The largest value of a 32-bit `int` (`INT_MAX` of `<limits.h>`). -/
def INT_MAX : Int := 2147483647

/-- The smallest value of a 32-bit `int`. -/
def INT_MIN : Int := -2147483648

/-- Reduction of an integer to the 32-bit two's-complement range. -/
def wrapInt (x : Int) : Int := (x + 2147483648) % 4294967296 - 2147483648

/-- The value lies in the range of a 32-bit `int`. -/
def IsInt32 (x : Int) : Prop := INT_MIN ≤ x ∧ x ≤ INT_MAX

instance (x : Int) : Decidable (IsInt32 x) := by
  unfold IsInt32; infer_instance

/-! ## Translation entries -/

/-- One entry of the TLB or of the page table; the fields are the ones
`showTLB` prints, in that order. -/
structure TranslationEntry where
  vpn : Int
  ppn : Int
  tID : Int
  valid : Bool
  readOnly : Bool
  use : Bool
  dirty : Bool
  FIFOFlag : Int
  LRUFlag : Int
  deriving DecidableEq

/-- Both replacement counters of the entry are 32-bit `int` values. -/
def TranslationEntry.CountersInt32 (e : TranslationEntry) : Prop :=
  IsInt32 e.FIFOFlag ∧ IsInt32 e.LRUFlag

instance (e : TranslationEntry) : Decidable e.CountersInt32 := by
  unfold TranslationEntry.CountersInt32; infer_instance

/-- Build switches and constants the functions of `machine.cc` refer to. -/
structure Config where
  FIFO_REPLACE : Bool
  LRU_REPLACE : Bool
  USE_RPT : Bool
  TLBSize : Nat
  NumPhysPages : Nat
  pageTableSize : Nat
  deriving DecidableEq

/-! ## Victim selection: `Machine::findOneToReplace` -/

/-- Number of slots `findOneToReplace` scans: `type` 1 is the TLB, anything
else the page table. -/
def replaceLen (cfg : Config) (type : Int) : Nat :=
  if type = 1 then cfg.TLBSize
  else if cfg.USE_RPT then cfg.NumPhysPages else cfg.pageTableSize

/-- One iteration of the loop of `findOneToReplace` on the pair
`(targetv, targeti)`: the FIFO comparison when `FIFO_REPLACE` is defined, then
the LRU comparison when `LRU_REPLACE` is defined. -/
def findOneToReplaceBody (cfg : Config) (t : List TranslationEntry)
    (s : Int × Nat) (i : Nat) : Option (Int × Nat) := do
  let s1 ←
    if cfg.FIFO_REPLACE then
      (t[i]?).map (fun e => if s.1 > e.FIFOFlag then (e.FIFOFlag, i) else s)
    else some s
  let s2 ←
    if cfg.LRU_REPLACE then
      (t[i]?).map (fun e => if s1.1 > e.LRUFlag then (e.LRUFlag, i) else s1)
    else some s1
  pure s2

/-- The function `Machine::findOneToReplace`: scan slots `0 .. len-1` from
`targetv = INT_MAX`, `targeti = 0`, and return `targeti`. -/
def findOneToReplace (cfg : Config) (t : List TranslationEntry) (type : Int) :
    Option Nat :=
  ((List.range (replaceLen cfg type)).foldlM (findOneToReplaceBody cfg t)
    (INT_MAX, 0)).map (fun s => s.2)

/-! ## Counter updates: `Machine::updateFIFOFlag`, `Machine::updateLRUFlag` -/

/-- One iteration of the loop of `updateFIFOFlag` on `num`. -/
def updateFIFOFlagBody (t : List TranslationEntry) (pos : Nat) (num : Int)
    (i : Nat) : Option Int :=
  (t[i]?).map (fun e =>
    if e.valid && i != pos then (if num ≥ e.FIFOFlag then num else e.FIFOFlag)
    else num)

/-- The function `Machine::updateFIFOFlag`: `num` starts at `-1`, runs over
slots `0 .. len-1`, and slot `pos` gets `FIFOFlag = num + 1`. -/
def updateFIFOFlag (t : List TranslationEntry) (pos : Nat) (len : Nat) :
    Option (List TranslationEntry) := do
  let num ← (List.range len).foldlM (updateFIFOFlagBody t pos) (-1)
  let e ← t[pos]?
  pure (t.set pos { e with FIFOFlag := wrapInt (num + 1) })

/-- One iteration of the loop of `updateLRUFlag` on `num`. -/
def updateLRUFlagBody (t : List TranslationEntry) (pos : Nat) (num : Int)
    (i : Nat) : Option Int :=
  (t[i]?).map (fun e =>
    if e.valid && i != pos then (if num ≥ e.LRUFlag then num else e.LRUFlag)
    else num)

/-- The function `Machine::updateLRUFlag`: `num` starts at `-1`, runs over
slots `0 .. len-1`, and slot `pos` gets `LRUFlag = num + 1`. -/
def updateLRUFlag (t : List TranslationEntry) (pos : Nat) (len : Nat) :
    Option (List TranslationEntry) := do
  let num ← (List.range len).foldlM (updateLRUFlagBody t pos) (-1)
  let e ← t[pos]?
  pure (t.set pos { e with LRUFlag := wrapInt (num + 1) })

/-! ## TLB refill: `Machine::updateTLB` -/

/-- The first loop of `updateTLB`, started at index `i` with `remaining`
iterations left (`remaining = TLBSize - i`): the index of the first slot from
`i` on whose `valid` bit is clear, or `TLBSize` when the loop runs out. -/
def firstInvalidFrom (tlb : List TranslationEntry) : Nat → Nat → Option Nat
  | 0, i => some i
  | remaining + 1, i =>
    match tlb[i]? with
    | none => none
    | some e => if !e.valid then some i else firstInvalidFrom tlb remaining (i + 1)

/-- The value of `i` when `updateTLB` reaches `*(tlb+i) = entry`. -/
def updateTLBSlot (cfg : Config) (tlb : List TranslationEntry) : Option Nat := do
  let i ← firstInvalidFrom tlb cfg.TLBSize 0
  if i = cfg.TLBSize then findOneToReplace cfg tlb 1 else pure i

/-- The function `Machine::updateTLB`. -/
def updateTLB (cfg : Config) (tlb : List TranslationEntry)
    (entry : TranslationEntry) : Option (List TranslationEntry) := do
  let i ← updateTLBSlot cfg tlb
  if i < tlb.length then
    let tlb1 := tlb.set i entry
    if cfg.FIFO_REPLACE then updateFIFOFlag tlb1 i cfg.TLBSize else pure tlb1
  else none

/-- Successive `updateTLB` calls, one per entry of the list, in order. -/
def installAll (cfg : Config) (tlb : List TranslationEntry)
    (es : List TranslationEntry) : Option (List TranslationEntry) :=
  es.foldlM (updateTLB cfg) tlb

/-! ## Auxiliary notions used by the statements and proofs -/

/-- The body of the victim scan for one counter `flag`. -/
def minBody (flag : TranslationEntry → Int) (t : List TranslationEntry)
    (s : Int × Nat) (i : Nat) : Option (Int × Nat) :=
  (t[i]?).map (fun e => if s.1 > flag e then (flag e, i) else s)

/-- The body of the counter-update scan for one counter `flag`. -/
def maxBody (flag : TranslationEntry → Int) (t : List TranslationEntry)
    (pos : Nat) (num : Int) (i : Nat) : Option Int :=
  (t[i]?).map (fun e =>
    if e.valid && i != pos then (if num ≥ flag e then num else flag e) else num)

/-- Loop invariant of the victim scan after `k` slots: `v` is a lower bound of
the counters seen, it is `INT_MAX` with `i = 0` or the counter of slot `i < k`,
and every slot before `i` has a strictly larger counter. -/
def MinInv (flag : TranslationEntry → Int) (t : List TranslationEntry)
    (k : Nat) (v : Int) (i : Nat) : Prop :=
  (∀ j e, j < k → t[j]? = some e → v ≤ flag e) ∧
  ((v = INT_MAX ∧ i = 0) ∨ (i < k ∧ ∃ e, t[i]? = some e ∧ flag e = v)) ∧
  (∀ j e, j < i → t[j]? = some e → v < flag e)

/-- Loop invariant of the counter-update scan after `k` slots: `num` is the
larger of `-1` and the counters of the valid slots below `k` other than `pos`. -/
def MaxInv (flag : TranslationEntry → Int) (t : List TranslationEntry)
    (pos k : Nat) (num : Int) : Prop :=
  -1 ≤ num ∧
  (∀ j e, j < k → t[j]? = some e → e.valid = true → j ≠ pos → flag e ≤ num) ∧
  (num = -1 ∨ ∃ j e, j < k ∧ t[j]? = some e ∧ e.valid = true ∧ j ≠ pos ∧ flag e = num)

/-- The number `M` is the largest counter `flag` among the valid entries of `t`
at an index other than `pos`. -/
def IsMaxOther (flag : TranslationEntry → Int) (t : List TranslationEntry)
    (pos : Nat) (M : Int) : Prop :=
  (∃ j e, t[j]? = some e ∧ e.valid = true ∧ j ≠ pos ∧ flag e = M) ∧
  (∀ j e, t[j]? = some e → e.valid = true → j ≠ pos → flag e ≤ M)

/-- No entry of `t` at an index other than `pos` is valid. -/
def NoOtherValid (t : List TranslationEntry) (pos : Nat) : Prop :=
  ∀ j e, t[j]? = some e → j ≠ pos → e.valid = false

/-- The entry with its two replacement counters exchanged. -/
def swapFlags (e : TranslationEntry) : TranslationEntry :=
  { e with FIFOFlag := e.LRUFlag, LRUFlag := e.FIFOFlag }

/-- State of a TLB that started as `t0` after the entries `es` have been
installed one by one under FIFO: slot `j` holds the `j`-th entry with
`FIFOFlag = j`, and the slots from `es.length` on are those of `t0`. -/
def Installed (t0 es S : List TranslationEntry) : Prop :=
  S.length = t0.length ∧
  (∀ (j : Nat) (e : TranslationEntry), es[j]? = some e →
    S[j]? = some { e with FIFOFlag := (j : Int) }) ∧
  (∀ j : Nat, es.length ≤ j → S[j]? = t0[j]?)

/-! ## Sample data for the concrete instances -/

/-- A slot whose `valid` bit is clear. -/
def emptySlot : TranslationEntry :=
  { vpn := -1, ppn := -1, tID := -1, valid := false, readOnly := false,
    use := false, dirty := false, FIFOFlag := 0, LRUFlag := 0 }

/-- A valid entry for virtual page `v` with the given two counters. -/
def page (v fifo lru : Int) : TranslationEntry :=
  { vpn := v, ppn := v + 100, tID := 1, valid := true, readOnly := false,
    use := false, dirty := false, FIFOFlag := fifo, LRUFlag := lru }

/-- A FIFO build with a TLB of `n` slots. -/
def fifoConfig (n : Nat) : Config :=
  { FIFO_REPLACE := true, LRU_REPLACE := false, USE_RPT := false, TLBSize := n,
    NumPhysPages := 32, pageTableSize := 32 }

/-- An LRU build with a TLB of `n` slots. -/
def lruConfig (n : Nat) : Config :=
  { FIFO_REPLACE := false, LRU_REPLACE := true, USE_RPT := false, TLBSize := n,
    NumPhysPages := 32, pageTableSize := 32 }

/-! ## Register file and exception dispatch -/

/-- Register numbers of `machine.h` that `machine.cc` refers to. -/
structure RegLayout where
  NumTotalRegs : Nat
  LoadReg : Nat
  LoadValueReg : Nat
  BadVAddrReg : Nat
  deriving DecidableEq

/-- Processor mode kept by the interrupt controller. -/
inductive MachineStatus where
  | IdleMode
  | SystemMode
  | UserMode
  deriving DecidableEq

/-- Exception kinds, in the order of the table `exceptionNames`. -/
inductive ExceptionType where
  | NoException
  | SyscallException
  | PageFaultException
  | TLBMissException
  | ReadOnlyException
  | BusErrorException
  | AddressErrorException
  | OverflowException
  | IllegalInstrException
  deriving DecidableEq

/-- Ways a call stops without a result: a failed `ASSERT`, or an access
outside the register array. -/
inductive Fault where
  | assertionFailed
  | outOfBounds
  deriving DecidableEq

/-- The part of the machine the register and exception routines touch: the
array `registers` and the mode held in `kernel->interrupt`. -/
structure Machine where
  registers : List Int
  status : MachineStatus
  deriving DecidableEq

/-- The read `registers[k]`. -/
def regLoad (m : Machine) (k : Int) : Except Fault Int :=
  if 0 ≤ k then
    match m.registers[k.toNat]? with
    | some v => .ok v
    | none => .error .outOfBounds
  else .error .outOfBounds

/-- The assignment `registers[k] = v`. -/
def regStore (m : Machine) (k : Int) (v : Int) : Except Fault Machine :=
  if 0 ≤ k ∧ k.toNat < m.registers.length then
    .ok { m with registers := m.registers.set k.toNat v }
  else .error .outOfBounds

/-- The function `Machine::ReadRegister`; the result carries the machine state
after the call. -/
def ReadRegister (L : RegLayout) (m : Machine) (num : Int) :
    Except Fault (Int × Machine) :=
  if 0 ≤ num ∧ num < (L.NumTotalRegs : Int) then
    (regLoad m num).map (fun v => (v, m))
  else .error .assertionFailed

/-- The function `Machine::WriteRegister`. -/
def WriteRegister (L : RegLayout) (m : Machine) (num value : Int) :
    Except Fault Machine :=
  if 0 ≤ num ∧ num < (L.NumTotalRegs : Int) then regStore m num value
  else .error .assertionFailed

/-- Modelled from the spec: `Machine::DelayedLoad` is not in `machine.cc`.
Section 4.6 step 2 flushes the in-flight delayed load by "writing back to its
target register"; the pending load is the pair of registers `Load` (target) and
`LoadValue` (value) of section 3, and the two arguments become the new pending
load. -/
def DelayedLoad (L : RegLayout) (nextReg nextValue : Int) (m : Machine) :
    Except Fault Machine := do
  let target ← regLoad m L.LoadReg
  let value ← regLoad m L.LoadValueReg
  let m1 ← regStore m target value
  let m2 ← regStore m1 L.LoadReg nextReg
  regStore m2 L.LoadValueReg nextValue

/-- Modelled from the spec: `Interrupt::setStatus` is not in `machine.cc`.
Section 4.6 steps 3 and 5 switch the processor mode. -/
def setStatus (st : MachineStatus) (m : Machine) : Machine :=
  { m with status := st }

/-- The state in which `RaiseException` calls `ExceptionHandler`: `BadVAddrReg`
written, the delayed load flushed, the mode set to `SystemMode`. -/
def exceptionEntry (L : RegLayout) (badVAddr : Int) (m : Machine) :
    Except Fault Machine := do
  let m1 ← regStore m L.BadVAddrReg badVAddr
  let m2 ← DelayedLoad L 0 0 m1
  pure (setStatus .SystemMode m2)

/-- The function `Machine::RaiseException`; `handler` is the kernel's
`ExceptionHandler`. -/
def RaiseException (L : RegLayout) (handler : ExceptionType → Machine → Machine)
    (which : ExceptionType) (badVAddr : Int) (m : Machine) : Except Fault Machine := do
  let m3 ← exceptionEntry L badVAddr m
  let m4 := handler which m3
  pure (setStatus .UserMode m4)

/-- The register numbering of the MIPS simulator: 32 general registers, then
Hi, Lo, PC, NextPC, PrevPC, Load, LoadValue, BadVAddr. -/
def mipsLayout : RegLayout :=
  { NumTotalRegs := 40, LoadReg := 37, LoadValueReg := 38, BadVAddrReg := 39 }

/-- A machine in user mode with all 40 registers zero. -/
def zeroMachine : Machine :=
  { registers := List.replicate 40 0, status := .UserMode }

/-- A machine in user mode whose pending delayed load is the value 77 for
general register 5. -/
def pendingLoadMachine : Machine :=
  { registers := ((List.replicate 40 0).set 37 5).set 38 77, status := .UserMode }

/-- A machine in user mode whose pending delayed load is the value 77 for
register 39, the `BadVAddr` register. -/
def pendingBadVAddrMachine : Machine :=
  { registers := ((List.replicate 40 0).set 37 39).set 38 77, status := .UserMode }

/-! ## Instrumented install runs -/

/-- One `updateTLB` call of an instrumented run: beside the TLB, `stamps`
records for each slot the number `k` of the install whose entry it holds
(`none` for a slot never written). -/
def installStamped (cfg : Config) (k : Nat)
    (st : List TranslationEntry × List (Option Nat)) (e : TranslationEntry) :
    Option (List TranslationEntry × List (Option Nat)) := do
  let i ← updateTLBSlot cfg st.1
  let tlb1 ← updateTLB cfg st.1 e
  pure (tlb1, st.2.set i (some k))

/-- The instrumented run: the entries are installed in order, the first one
being install number `k`. -/
def installFrom (cfg : Config) :
    Nat → List TranslationEntry × List (Option Nat) → List TranslationEntry →
      Option (List TranslationEntry × List (Option Nat))
  | _, st, [] => some st
  | k, st, e :: es => (installStamped cfg k st e).bind (fun st1 => installFrom cfg (k + 1) st1 es)

/-- The instrumented state of a TLB before any install. -/
def freshStamps (t0 : List TranslationEntry) :
    List TranslationEntry × List (Option Nat) :=
  (t0, List.replicate t0.length none)

/-- Invariant of a FIFO run after `k` installs into a TLB of `n` slots: a slot
holds a valid entry exactly when it carries a stamp; the stamp is below `k`,
stamps of different slots differ, the counter of a valid entry lies between 0
and its stamp and within the `int` range, and a later stamp goes with a strictly
larger counter. -/
def FifoInv (n k : Nat) (S : List TranslationEntry) (stamps : List (Option Nat)) : Prop :=
  S.length = n ∧ stamps.length = n ∧
  (∀ (j : Nat) (e : TranslationEntry), S[j]? = some e → e.valid = true →
    ∃ s : Nat, stamps[j]? = some (some s) ∧ s < k ∧ 0 ≤ e.FIFOFlag ∧
      e.FIFOFlag ≤ (s : Int) ∧ e.FIFOFlag ≤ INT_MAX) ∧
  (∀ (j s : Nat), stamps[j]? = some (some s) → ∃ e, S[j]? = some e ∧ e.valid = true) ∧
  (∀ (i j si sj : Nat) (ei ej : TranslationEntry), S[i]? = some ei → S[j]? = some ej →
    ei.valid = true → ej.valid = true → stamps[i]? = some (some si) →
    stamps[j]? = some (some sj) → si < sj → ei.FIFOFlag < ej.FIFOFlag) ∧
  (∀ (i j s : Nat), stamps[i]? = some (some s) → stamps[j]? = some (some s) → i = j)

/-- At most one valid entry of the structure maps each pair of address space
`tID` and virtual page `vpn`. -/
def UniqueMapping (t : List TranslationEntry) : Prop :=
  ∀ (i j : Nat) (ei ej : TranslationEntry), t[i]? = some ei → t[j]? = some ej →
    ei.valid = true → ej.valid = true → ei.tID = ej.tID → ei.vpn = ej.vpn → i = j

/-! ## Frame allocator -/

/-- Modelled from the spec: the class `Bitmap` of `mmBitmap` is not under
`src`. Section 3 describes the allocator state as a set of physical-frame
indices, each exactly free or allocated; `true` stands for allocated. -/
abbrev Bitmap := List Bool

/-- Index of the lowest free frame, if any. -/
def Bitmap.lowestFree : Bitmap → Option Nat
  | [] => none
  | false :: _ => some 0
  | true :: bs => (Bitmap.lowestFree bs).map (fun i => i + 1)

/-- Modelled from the spec: `Bitmap::FindAndSet` is not under `src`. Section
4.1: `allocate` "finds and marks the lowest free frame, returns `None`/failure
when physical memory is exhausted". -/
def Bitmap.FindAndSet (b : Bitmap) : Option Nat × Bitmap :=
  match Bitmap.lowestFree b with
  | some i => (some i, b.set i true)
  | none => (none, b)

/-- Modelled from the spec: freeing a frame is not under `src`. Section 4.1:
`free` "marks a frame free; fails (contract violation) if the frame was not
allocated". -/
def Bitmap.free (b : Bitmap) (f : Nat) : Option Bitmap :=
  if b[f]? = some true then some (b.set f false) else none

/-- The function `Machine::findAvailablePageFrame`, on the state of
`mmBitmap`: the call `mmBitmap->FindAndSet()`. -/
def findAvailablePageFrame (mmBitmap : Bitmap) : Option Nat × Bitmap :=
  Bitmap.FindAndSet mmBitmap

/-- A call on the frame allocator. -/
inductive FrameOp where
  | allocate
  | free (f : Nat)
  deriving DecidableEq

/-- One allocator call on the pair of the bitmap and the list of live frames
(results of `allocate` not freed since); a contract violation stops the run. -/
def frameStep (st : Bitmap × List Nat) : FrameOp → Option (Bitmap × List Nat)
  | .allocate =>
    match findAvailablePageFrame st.1 with
    | (some f, b1) => some (b1, f :: st.2)
    | (none, b1) => some (b1, st.2)
  | .free f => (Bitmap.free st.1 f).map (fun b1 => (b1, st.2.erase f))

/-- A sequence of allocator calls from a given state. -/
def frameRun (st : Bitmap × List Nat) (ops : List FrameOp) : Option (Bitmap × List Nat) :=
  ops.foldlM frameStep st

/-- The allocator of `n` frames with every frame free and no live result. -/
def freshFrames (n : Nat) : Bitmap × List Nat := (List.replicate n false, [])

/-- Invariant of the allocator runs: the bitmap has `n` frames, the live list
has no repetition, and a frame is live exactly when its bit is set. -/
def AllocInv (n : Nat) (st : Bitmap × List Nat) : Prop :=
  st.1.length = n ∧ st.2.Nodup ∧ ∀ f : Nat, f ∈ st.2 ↔ st.1[f]? = some true

/-! # Lemmas -/

/-! ## The victim scan -/

theorem findOneToReplaceBody_fifo (cfg : Config) (hF : cfg.FIFO_REPLACE = true)
    (hL : cfg.LRU_REPLACE = false) (t : List TranslationEntry) :
    findOneToReplaceBody cfg t = minBody TranslationEntry.FIFOFlag t := by
  funext s i
  simp only [findOneToReplaceBody, minBody, hF, hL]
  cases t[i]? <;> rfl

theorem findOneToReplaceBody_lru (cfg : Config) (hF : cfg.FIFO_REPLACE = false)
    (hL : cfg.LRU_REPLACE = true) (t : List TranslationEntry) :
    findOneToReplaceBody cfg t = minBody TranslationEntry.LRUFlag t := by
  funext s i
  simp only [findOneToReplaceBody, minBody, hF, hL]
  cases t[i]? <;> rfl

theorem minScan_inv (flag : TranslationEntry → Int) (t : List TranslationEntry)
    (k : Nat) (hk : k ≤ t.length) :
    ∃ v i, (List.range k).foldlM (minBody flag t) (INT_MAX, 0) = some (v, i) ∧
      MinInv flag t k v i := by
  induction k with
  | zero =>
    refine ⟨INT_MAX, 0, rfl, ?_, Or.inl ⟨rfl, rfl⟩, ?_⟩
    · intro j e hj; omega
    · intro j e hj; omega
  | succ k ih =>
    obtain ⟨v, i, hfold, h1, h2, h3⟩ := ih (by omega)
    have hlt : k < t.length := by omega
    have hget : t[k]? = some t[k] := List.getElem?_eq_getElem hlt
    rw [List.range_succ, List.foldlM_append, hfold]
    by_cases hc : v > flag t[k]
    · refine ⟨flag t[k], k, by simp [minBody, hget, hc], ?_, ?_, ?_⟩
      · intro j e hj hje
        rcases Nat.lt_succ_iff_lt_or_eq.mp hj with hj | hj
        · have := h1 j e hj hje; omega
        · subst hj; rw [hget] at hje; cases hje; exact le_refl _
      · exact Or.inr ⟨by omega, t[k], hget, rfl⟩
      · intro j e hj hje
        have := h1 j e hj hje; omega
    · refine ⟨v, i, by simp [minBody, hget, hc], ?_, ?_, h3⟩
      · intro j e hj hje
        rcases Nat.lt_succ_iff_lt_or_eq.mp hj with hj | hj
        · exact h1 j e hj hje
        · subst hj; rw [hget] at hje; cases hje; omega
      · rcases h2 with h2 | ⟨hi, e, he, hv⟩
        · exact Or.inl h2
        · exact Or.inr ⟨by omega, e, he, hv⟩

theorem minScan_result (flag : TranslationEntry → Int) (t : List TranslationEntry)
    (hne : 0 < t.length) (hr : ∀ e ∈ t, flag e ≤ INT_MAX) :
    ∃ v i e, (List.range t.length).foldlM (minBody flag t) (INT_MAX, 0) = some (v, i) ∧
      t[i]? = some e ∧ flag e = v ∧
      (∀ (j : Nat) (ej : TranslationEntry), t[j]? = some ej → flag e ≤ flag ej) ∧
      (∀ (j : Nat) (ej : TranslationEntry), j < i → t[j]? = some ej → flag e < flag ej) := by
  obtain ⟨v, i, hfold, h1, h2, h3⟩ := minScan_inv flag t t.length (le_refl _)
  have hall : ∀ (j : Nat) (ej : TranslationEntry), t[j]? = some ej → v ≤ flag ej := by
    intro j ej hj
    exact h1 j ej (List.getElem?_eq_some_iff.mp hj).1 hj
  rcases h2 with ⟨hv, hi⟩ | ⟨_, e, he, hv⟩
  · subst hi
    have hget : t[0]? = some t[0] := List.getElem?_eq_getElem hne
    have hle : flag t[0] ≤ INT_MAX := hr _ (List.getElem_mem hne)
    have hge := hall 0 _ hget
    have hev : flag t[0] = v := by omega
    refine ⟨v, 0, t[0], hfold, hget, hev, ?_, ?_⟩
    · intro j ej hj; rw [hev]; exact hall j ej hj
    · intro j ej hj; omega
  · refine ⟨v, i, e, hfold, he, hv, ?_, ?_⟩
    · intro j ej hj; rw [hv]; exact hall j ej hj
    · intro j ej hj hje; rw [hv]; exact h3 j ej hj hje

theorem findOneToReplace_fifo_min (cfg : Config) (hF : cfg.FIFO_REPLACE = true)
    (hL : cfg.LRU_REPLACE = false) (t : List TranslationEntry) (type : Int)
    (hlen : t.length = replaceLen cfg type) (hpos : 0 < t.length)
    (hr : ∀ e ∈ t, e.FIFOFlag ≤ INT_MAX) :
    ∃ i e, findOneToReplace cfg t type = some i ∧ t[i]? = some e ∧
      (∀ (j : Nat) (ej : TranslationEntry), t[j]? = some ej → e.FIFOFlag ≤ ej.FIFOFlag) ∧
      (∀ (j : Nat) (ej : TranslationEntry), j < i → t[j]? = some ej →
        e.FIFOFlag < ej.FIFOFlag) := by
  obtain ⟨v, i, e, hfold, he, _, hmin, hlow⟩ :=
    minScan_result TranslationEntry.FIFOFlag t hpos hr
  refine ⟨i, e, ?_, he, hmin, hlow⟩
  rw [findOneToReplace, ← hlen, findOneToReplaceBody_fifo cfg hF hL, hfold]; rfl

theorem findOneToReplace_lru_min (cfg : Config) (hF : cfg.FIFO_REPLACE = false)
    (hL : cfg.LRU_REPLACE = true) (t : List TranslationEntry) (type : Int)
    (hlen : t.length = replaceLen cfg type) (hpos : 0 < t.length)
    (hr : ∀ e ∈ t, e.LRUFlag ≤ INT_MAX) :
    ∃ i e, findOneToReplace cfg t type = some i ∧ t[i]? = some e ∧
      (∀ (j : Nat) (ej : TranslationEntry), t[j]? = some ej → e.LRUFlag ≤ ej.LRUFlag) ∧
      (∀ (j : Nat) (ej : TranslationEntry), j < i → t[j]? = some ej →
        e.LRUFlag < ej.LRUFlag) := by
  obtain ⟨v, i, e, hfold, he, _, hmin, hlow⟩ :=
    minScan_result TranslationEntry.LRUFlag t hpos hr
  refine ⟨i, e, ?_, he, hmin, hlow⟩
  rw [findOneToReplace, ← hlen, findOneToReplaceBody_lru cfg hF hL, hfold]; rfl

/-! ## The counter-update scan -/

theorem maxScan_inv (flag : TranslationEntry → Int) (t : List TranslationEntry)
    (pos k : Nat) (hk : k ≤ t.length) :
    ∃ num, (List.range k).foldlM (maxBody flag t pos) (-1) = some num ∧
      MaxInv flag t pos k num := by
  induction k with
  | zero =>
    refine ⟨-1, rfl, le_refl _, ?_, Or.inl rfl⟩
    intro j e hj; omega
  | succ k ih =>
    obtain ⟨num, hfold, h1, h2, h3⟩ := ih (by omega)
    have hlt : k < t.length := by omega
    have hget : t[k]? = some t[k] := List.getElem?_eq_getElem hlt
    rw [List.range_succ, List.foldlM_append, hfold]
    have hold : ∀ (j : Nat) (e : TranslationEntry) (m : Int), num ≤ m → j < k →
        t[j]? = some e → e.valid = true → j ≠ pos → flag e ≤ m := by
      intro j e m hm hj hje hv hne
      have := h2 j e hj hje hv hne; omega
    by_cases hc : t[k].valid = true ∧ k ≠ pos
    · by_cases hge : num ≥ flag t[k]
      · refine ⟨num, by simp [maxBody, hget, hc.1, hc.2, hge], h1, ?_, ?_⟩
        · intro j e hj hje hv hne
          rcases Nat.lt_succ_iff_lt_or_eq.mp hj with hj | hj
          · exact h2 j e hj hje hv hne
          · subst hj; rw [hget] at hje; cases hje; omega
        · rcases h3 with h3 | ⟨j, e, hj, hje, hv, hne, hf⟩
          · exact Or.inl h3
          · exact Or.inr ⟨j, e, by omega, hje, hv, hne, hf⟩
      · refine ⟨flag t[k], by simp [maxBody, hget, hc.1, hc.2, hge], by omega, ?_, ?_⟩
        · intro j e hj hje hv hne
          rcases Nat.lt_succ_iff_lt_or_eq.mp hj with hj | hj
          · exact hold j e _ (by omega) hj hje hv hne
          · subst hj; rw [hget] at hje; cases hje; exact le_refl _
        · exact Or.inr ⟨k, t[k], by omega, hget, hc.1, hc.2, rfl⟩
    · have hbody : maxBody flag t pos num k = some num := by
        simp only [maxBody, hget, Option.map_some']
        by_cases hv : t[k].valid = true
        · have : k = pos := by by_contra h; exact hc ⟨hv, h⟩
          simp [hv, this]
        · simp [hv]
      refine ⟨num, by simp [hbody], h1, ?_, ?_⟩
      · intro j e hj hje hv hne
        rcases Nat.lt_succ_iff_lt_or_eq.mp hj with hj | hj
        · exact h2 j e hj hje hv hne
        · subst hj; rw [hget] at hje; cases hje; exact absurd ⟨hv, hne⟩ hc
      · rcases h3 with h3 | ⟨j, e, hj, hje, hv, hne, hf⟩
        · exact Or.inl h3
        · exact Or.inr ⟨j, e, by omega, hje, hv, hne, hf⟩

/-- The value of `num` after the whole scan, in terms of the array. -/
theorem maxScan_result (flag : TranslationEntry → Int) (t : List TranslationEntry)
    (pos : Nat) :
    ∃ num, (List.range t.length).foldlM (maxBody flag t pos) (-1) = some num ∧
      -1 ≤ num ∧
      (∀ (j : Nat) (e : TranslationEntry), t[j]? = some e → e.valid = true → j ≠ pos →
        flag e ≤ num) ∧
      (num = -1 ∨ ∃ (j : Nat) (e : TranslationEntry),
        t[j]? = some e ∧ e.valid = true ∧ j ≠ pos ∧ flag e = num) := by
  obtain ⟨num, hfold, h1, h2, h3⟩ := maxScan_inv flag t pos t.length (le_refl _)
  refine ⟨num, hfold, h1, ?_, ?_⟩
  · intro j e hje
    exact h2 j e (List.getElem?_eq_some_iff.mp hje).1 hje
  · rcases h3 with h3 | ⟨j, e, _, hje, hv, hne, hf⟩
    · exact Or.inl h3
    · exact Or.inr ⟨j, e, hje, hv, hne, hf⟩

theorem maxScan_of_isMaxOther (flag : TranslationEntry → Int)
    (t : List TranslationEntry) (pos : Nat) (num M : Int)
    (hfold : (List.range t.length).foldlM (maxBody flag t pos) (-1) = some num)
    (hM : IsMaxOther flag t pos M) : num = max M (-1) := by
  obtain ⟨num', hfold', h1, h2, h3⟩ := maxScan_result flag t pos
  rw [hfold] at hfold'; cases hfold'
  obtain ⟨⟨j, e, hje, hv, hne, hf⟩, hub⟩ := hM
  have hle := h2 j e hje hv hne
  rcases h3 with h3 | ⟨j', e', hje', hv', hne', hf'⟩
  · rw [max_def]; split <;> omega
  · have := hub j' e' hje' hv' hne'
    rw [max_def]; split <;> omega

theorem maxScan_of_noOtherValid (flag : TranslationEntry → Int)
    (t : List TranslationEntry) (pos : Nat) (num : Int)
    (hfold : (List.range t.length).foldlM (maxBody flag t pos) (-1) = some num)
    (hN : NoOtherValid t pos) : num = -1 := by
  obtain ⟨num', hfold', _, _, h3⟩ := maxScan_result flag t pos
  rw [hfold] at hfold'; cases hfold'
  rcases h3 with h3 | ⟨j, e, hje, hv, hne, _⟩
  · exact h3
  · have := hN j e hje hne; rw [hv] at this; cases this

theorem wrapInt_of_range (x : Int) (h1 : INT_MIN ≤ x) (h2 : x ≤ INT_MAX) :
    wrapInt x = x := by
  unfold wrapInt; unfold INT_MIN at h1; unfold INT_MAX at h2; omega

theorem updateFIFOFlag_eq (t : List TranslationEntry) (pos : Nat)
    (hpos : pos < t.length) :
    ∃ num, (List.range t.length).foldlM (maxBody TranslationEntry.FIFOFlag t pos) (-1)
        = some num ∧
      updateFIFOFlag t pos t.length
        = some (t.set pos { t[pos] with FIFOFlag := wrapInt (num + 1) }) := by
  obtain ⟨num, hfold, _⟩ := maxScan_result TranslationEntry.FIFOFlag t pos
  refine ⟨num, hfold, ?_⟩
  have hb : updateFIFOFlagBody t pos = maxBody TranslationEntry.FIFOFlag t pos := rfl
  simp [updateFIFOFlag, hb, hfold, List.getElem?_eq_getElem hpos]

theorem updateLRUFlag_eq (t : List TranslationEntry) (pos : Nat)
    (hpos : pos < t.length) :
    ∃ num, (List.range t.length).foldlM (maxBody TranslationEntry.LRUFlag t pos) (-1)
        = some num ∧
      updateLRUFlag t pos t.length
        = some (t.set pos { t[pos] with LRUFlag := wrapInt (num + 1) }) := by
  obtain ⟨num, hfold, _⟩ := maxScan_result TranslationEntry.LRUFlag t pos
  refine ⟨num, hfold, ?_⟩
  have hb : updateLRUFlagBody t pos = maxBody TranslationEntry.LRUFlag t pos := rfl
  simp [updateLRUFlag, hb, hfold, List.getElem?_eq_getElem hpos]

theorem swapFlags_swapFlags (e : TranslationEntry) : swapFlags (swapFlags e) = e := rfl

theorem updateFIFOFlagBody_swap (t : List TranslationEntry) (pos : Nat) :
    updateFIFOFlagBody (t.map swapFlags) pos = updateLRUFlagBody t pos := by
  funext num i
  simp only [updateFIFOFlagBody, updateLRUFlagBody, List.getElem?_map]
  cases t[i]? <;> simp [swapFlags]

theorem updateLRUFlag_eq_swap (t : List TranslationEntry) (pos len : Nat) :
    updateLRUFlag t pos len =
      (updateFIFOFlag (t.map swapFlags) pos len).map (List.map swapFlags) := by
  simp only [updateLRUFlag, updateFIFOFlag, updateFIFOFlagBody_swap, List.getElem?_map]
  cases (List.range len).foldlM (updateLRUFlagBody t pos) (-1) with
  | none => rfl
  | some num =>
    cases hp : t[pos]? with
    | none => simp [hp]
    | some e =>
      simp [hp, List.map_set, swapFlags, Function.comp_def]

theorem updateFIFOFlag_value (t : List TranslationEntry) (pos : Nat)
    (hpos : pos < t.length) :
    ∃ v, updateFIFOFlag t pos t.length = some (t.set pos { t[pos] with FIFOFlag := v }) ∧
      (∀ M : Int, IsMaxOther TranslationEntry.FIFOFlag t pos M → M < INT_MAX →
        v = 1 + max M (-1)) ∧
      (NoOtherValid t pos → v = 0) := by
  obtain ⟨num, hfold, hupd⟩ := updateFIFOFlag_eq t pos hpos
  refine ⟨wrapInt (num + 1), hupd, ?_, ?_⟩
  · intro M hM hlt
    have hnum := maxScan_of_isMaxOther _ t pos num M hfold hM
    rw [hnum]
    have h1 : max M (-1) ≤ INT_MAX - 1 := by
      rw [max_def]; unfold INT_MAX at *; split <;> omega
    have h2 : -1 ≤ max M (-1) := le_max_right _ _
    rw [wrapInt_of_range _ (by unfold INT_MIN; omega) (by omega)]; omega
  · intro hN
    have hnum := maxScan_of_noOtherValid _ t pos num hfold hN
    rw [hnum]; rfl

/-! ## The refill path -/

theorem firstInvalidFrom_spec (tlb : List TranslationEntry) (r i : Nat)
    (h : i + r ≤ tlb.length) :
    ∃ k, firstInvalidFrom tlb r i = some k ∧ i ≤ k ∧ k ≤ i + r ∧
      (∀ (j : Nat) (e : TranslationEntry), i ≤ j → j < k → tlb[j]? = some e →
        e.valid = true) ∧
      (k < i + r → ∃ e, tlb[k]? = some e ∧ e.valid = false) := by
  induction r generalizing i with
  | zero =>
    refine ⟨i, rfl, le_refl _, le_refl _, ?_, ?_⟩
    · intro j e h1 h2; omega
    · intro h1; omega
  | succ r ih =>
    have hlt : i < tlb.length := by omega
    have hget : tlb[i]? = some tlb[i] := List.getElem?_eq_getElem hlt
    by_cases hv : tlb[i].valid = true
    · obtain ⟨k, hk, h1, h2, h3, h4⟩ := ih (i + 1) (by omega)
      refine ⟨k, ?_, by omega, by omega, ?_, ?_⟩
      · simp [firstInvalidFrom, hget, hv, hk]
      · intro j e hij hjk hje
        rcases Nat.eq_or_lt_of_le hij with hij | hij
        · subst hij; rw [hget] at hje; cases hje; exact hv
        · exact h3 j e hij hjk hje
      · intro hlt'; exact h4 (by omega)
    · have hv' : tlb[i].valid = false := by simpa using hv
      refine ⟨i, ?_, le_refl _, by omega, ?_, ?_⟩
      · simp [firstInvalidFrom, hget, hv']
      · intro j e h1 h2; omega
      · intro _; exact ⟨tlb[i], hget, hv'⟩

theorem findOneToReplace_scan_bound (cfg : Config) (t : List TranslationEntry)
    (k : Nat) (hk : k ≤ t.length) :
    ∃ v i, (List.range k).foldlM (findOneToReplaceBody cfg t) (INT_MAX, 0) = some (v, i) ∧
      (i = 0 ∨ i < k) := by
  induction k with
  | zero => exact ⟨INT_MAX, 0, rfl, Or.inl rfl⟩
  | succ k ih =>
    obtain ⟨v, i, hfold, hi⟩ := ih (by omega)
    have hlt : k < t.length := by omega
    have hget : t[k]? = some t[k] := List.getElem?_eq_getElem hlt
    rw [List.range_succ, List.foldlM_append, hfold]
    have hi' : i = 0 ∨ i < k + 1 := by omega
    have hk' : k = 0 ∨ k < k + 1 := by omega
    cases hF : cfg.FIFO_REPLACE <;> cases hL : cfg.LRU_REPLACE <;>
      simp only [findOneToReplaceBody, hF, hL, hget, List.foldlM_cons, List.foldlM_nil,
        Option.map_some', Option.bind_eq_bind, Option.some_bind, Option.pure_def,
        Bool.false_eq_true, if_true, if_false] <;>
      (try split_ifs) <;>
      first
        | exact ⟨_, _, rfl, hi'⟩
        | exact ⟨_, _, rfl, hk'⟩

theorem findOneToReplace_bound (cfg : Config) (t : List TranslationEntry) (type : Int)
    (hlen : replaceLen cfg type ≤ t.length) (hpos : 0 < replaceLen cfg type) :
    ∃ i, findOneToReplace cfg t type = some i ∧ i < replaceLen cfg type := by
  obtain ⟨v, i, hfold, hi⟩ := findOneToReplace_scan_bound cfg t _ hlen
  exact ⟨i, by simp [findOneToReplace, hfold], by omega⟩

theorem replaceLen_tlb (cfg : Config) : replaceLen cfg 1 = cfg.TLBSize := by
  simp [replaceLen]

theorem isMaxOther_set (flag : TranslationEntry → Int) (t : List TranslationEntry)
    (i : Nat) (x : TranslationEntry) (M : Int) (h : IsMaxOther flag t i M) :
    IsMaxOther flag (t.set i x) i M := by
  obtain ⟨⟨j, e, hje, hv, hne, hf⟩, hub⟩ := h
  refine ⟨⟨j, e, ?_, hv, hne, hf⟩, ?_⟩
  · rw [List.getElem?_set_ne (Ne.symm hne)]; exact hje
  · intro j' e' hje' hv' hne'
    rw [List.getElem?_set_ne (Ne.symm hne')] at hje'
    exact hub j' e' hje' hv' hne'

theorem noOtherValid_set (t : List TranslationEntry) (i : Nat) (x : TranslationEntry)
    (h : NoOtherValid t i) : NoOtherValid (t.set i x) i := by
  intro j e hje hne
  rw [List.getElem?_set_ne (Ne.symm hne)] at hje
  exact h j e hje hne

theorem updateTLBSlot_spec (cfg : Config) (tlb : List TranslationEntry)
    (hlen : tlb.length = cfg.TLBSize) (hpos : 0 < cfg.TLBSize) :
    ∃ i, updateTLBSlot cfg tlb = some i ∧ i < cfg.TLBSize ∧
      ((∃ (j : Nat) (e : TranslationEntry), tlb[j]? = some e ∧ e.valid = false) →
        (∃ e, tlb[i]? = some e ∧ e.valid = false) ∧
        ∀ (j : Nat) (e : TranslationEntry), j < i → tlb[j]? = some e → e.valid = true) ∧
      ((∀ (j : Nat) (e : TranslationEntry), tlb[j]? = some e → e.valid = true) →
        findOneToReplace cfg tlb 1 = some i) := by
  obtain ⟨k, hk, _, h2, h3, h4⟩ := firstInvalidFrom_spec tlb cfg.TLBSize 0 (by omega)
  by_cases hfull : k = cfg.TLBSize
  · obtain ⟨i, hi, hib⟩ := findOneToReplace_bound cfg tlb 1
      (by rw [replaceLen_tlb]; omega) (by rw [replaceLen_tlb]; exact hpos)
    rw [replaceLen_tlb] at hib
    refine ⟨i, by simp [updateTLBSlot, hk, hfull, hi], hib, ?_, fun _ => hi⟩
    rintro ⟨j, e, hje, hv⟩
    have hj : j < tlb.length := (List.getElem?_eq_some_iff.mp hje).1
    have := h3 j e (Nat.zero_le _) (by omega) hje
    rw [hv] at this; cases this
  · have hklt : k < cfg.TLBSize := by omega
    refine ⟨k, by simp [updateTLBSlot, hk, hfull], hklt, ?_, ?_⟩
    · intro _
      exact ⟨h4 (by omega), fun j e hj hje => h3 j e (Nat.zero_le _) hj hje⟩
    · intro hall
      obtain ⟨e, he, hv⟩ := h4 (by omega)
      have := hall k e he
      rw [hv] at this; cases this

/-! ## Filling an empty TLB under FIFO -/

theorem install_step (cfg : Config) (hF : cfg.FIFO_REPLACE = true)
    (t0 es S : List TranslationEntry) (e : TranslationEntry)
    (hlen : t0.length = cfg.TLBSize) (hmax : (cfg.TLBSize : Int) ≤ INT_MAX)
    (hinv : ∀ x ∈ t0, x.valid = false) (hval : ∀ x ∈ es, x.valid = true)
    (hk : es.length < cfg.TLBSize) (hS : Installed t0 es S) :
    ∃ S', updateTLB cfg S e = some S' ∧ Installed t0 (es ++ [e]) S' := by
  obtain ⟨hSlen, hSlow, hShigh⟩ := hS
  have hSn : S.length = cfg.TLBSize := by omega
  have hpos : 0 < cfg.TLBSize := by omega
  have hkt : es.length < t0.length := by omega
  -- the slot chosen is `es.length`
  have hSk : S[es.length]? = some t0[es.length] := by
    rw [hShigh _ (le_refl _)]; exact List.getElem?_eq_getElem hkt
  have hk_inv : t0[es.length].valid = false := hinv _ (List.getElem_mem hkt)
  have hlowvalid : ∀ (j : Nat) (x : TranslationEntry), j < es.length → S[j]? = some x →
      x.valid = true ∧ x.FIFOFlag = (j : Int) := by
    intro j x hj hx
    have h := hSlow j es[j] (List.getElem?_eq_getElem hj)
    rw [hx] at h; cases h
    exact ⟨hval es[j] (List.getElem_mem hj), rfl⟩
  have hhighinv : ∀ (j : Nat) (x : TranslationEntry), es.length ≤ j → S[j]? = some x →
      x.valid = false := by
    intro j x hj hx
    rw [hShigh j hj] at hx
    exact hinv x (List.getElem?_mem hx)
  obtain ⟨i, hslot, hi, hfirst, _⟩ := updateTLBSlot_spec cfg S hSn hpos
  obtain ⟨⟨x, hx, hxv⟩, hbefore⟩ := hfirst ⟨es.length, _, hSk, hk_inv⟩
  have hik : i = es.length := by
    rcases Nat.lt_trichotomy i es.length with h | h | h
    · have := (hlowvalid i x h hx).1; rw [hxv] at this; cases this
    · exact h
    · have := hbefore _ _ h hSk; rw [hk_inv] at this; cases this
  subst hik
  have hil : es.length < S.length := by omega
  have hil' : es.length < (S.set es.length e).length := by simpa using hil
  obtain ⟨v, hupd, hvmax, hvnone⟩ := updateFIFOFlag_value (S.set es.length e) es.length hil'
  have hlen' : (S.set es.length e).length = cfg.TLBSize := by simpa using hSn
  rw [hlen'] at hupd
  -- the counter written is `es.length`
  have hv : v = (es.length : Int) := by
    rcases Nat.eq_zero_or_pos es.length with h0 | hpos'
    · rw [h0]
      have : NoOtherValid (S.set es.length e) es.length := by
        intro j y hy hne
        rw [List.getElem?_set_ne (Ne.symm hne)] at hy
        exact hhighinv j y (by omega) hy
      simpa using hvnone this
    · have hj : es.length - 1 < es.length := by omega
      have hM : IsMaxOther TranslationEntry.FIFOFlag (S.set es.length e) es.length
          ((es.length - 1 : Nat) : Int) := by
        refine ⟨⟨es.length - 1, { es[es.length - 1] with
            FIFOFlag := ((es.length - 1 : Nat) : Int) }, ?_, ?_, by omega, rfl⟩, ?_⟩
        · rw [List.getElem?_set_ne (by omega)]
          exact hSlow _ _ (List.getElem?_eq_getElem hj)
        · exact hval es[es.length - 1] (List.getElem_mem hj)
        · intro j y hy hyv hne
          rw [List.getElem?_set_ne (Ne.symm hne)] at hy
          rcases Nat.lt_or_ge j es.length with h | h
          · rw [(hlowvalid j y h hy).2]; omega
          · have := hhighinv j y h hy; rw [hyv] at this; cases this
      have := hvmax _ hM (by unfold INT_MAX at *; omega)
      rw [this, max_def]; split <;> omega
  have hupd2 : updateFIFOFlag (S.set es.length e) es.length cfg.TLBSize =
      some (S.set es.length { e with FIFOFlag := (es.length : Int) }) := by
    rw [hupd]; simp [hv]
  refine ⟨S.set es.length { e with FIFOFlag := (es.length : Int) },
    by simp [updateTLB, hslot, hil, hF, hupd2], by simp [hSlen], ?_, ?_⟩
  · intro j y hy
    rcases Nat.lt_trichotomy j es.length with h | h | h
    · rw [List.getElem?_append_left h] at hy
      rw [List.getElem?_set_ne (by omega)]
      exact hSlow j y hy
    · subst h
      rw [List.getElem?_append_right (le_refl _)] at hy
      simp at hy; subst hy
      simp [hil]
    · rw [List.getElem?_append_right (by omega)] at hy
      have : j - es.length = (j - es.length - 1) + 1 := by omega
      rw [this] at hy; simp at hy
  · intro j hj
    simp only [List.length_append, List.length_singleton] at hj
    rw [List.getElem?_set_ne (by omega)]
    exact hShigh j (by omega)

theorem installAll_installed (cfg : Config) (hF : cfg.FIFO_REPLACE = true)
    (t0 es : List TranslationEntry)
    (hlen : t0.length = cfg.TLBSize) (hmax : (cfg.TLBSize : Int) ≤ INT_MAX)
    (hinv : ∀ x ∈ t0, x.valid = false) (hval : ∀ x ∈ es, x.valid = true)
    (hk : es.length ≤ cfg.TLBSize) :
    ∃ S, installAll cfg t0 es = some S ∧ Installed t0 es S := by
  induction es using List.reverseRecOn with
  | nil =>
    refine ⟨t0, rfl, rfl, ?_, fun j _ => rfl⟩
    intro j e h; simp at h
  | append_singleton es e ih =>
    have hk' : es.length < cfg.TLBSize := by
      simp only [List.length_append, List.length_singleton] at hk; omega
    obtain ⟨S, hS, hinst⟩ := ih (fun x hx => hval x (List.mem_append_left _ hx)) (by omega)
    obtain ⟨S', hS', hinst'⟩ := install_step cfg hF t0 es S e hlen hmax hinv
      (fun x hx => hval x (List.mem_append_left _ hx)) hk' hinst
    refine ⟨S', ?_, hinst'⟩
    simp [installAll, List.foldlM_append] at hS ⊢
    simp [hS, hS']

theorem install_into_full (cfg : Config) (hF : cfg.FIFO_REPLACE = true)
    (hL : cfg.LRU_REPLACE = false) (t0 es S : List TranslationEntry)
    (E : TranslationEntry) (hpos : 0 < cfg.TLBSize)
    (hmax : (cfg.TLBSize : Int) ≤ INT_MAX) (hlen : t0.length = cfg.TLBSize)
    (hes : es.length = cfg.TLBSize) (hval : ∀ x ∈ es, x.valid = true)
    (hS : Installed t0 es S) :
    updateTLBSlot cfg S = some 0 ∧
    updateTLB cfg S E = some (S.set 0
      { E with FIFOFlag := if cfg.TLBSize = 1 then 0 else (cfg.TLBSize : Int) }) := by
  obtain ⟨hSlen, hSlow, _⟩ := hS
  have hSn : S.length = cfg.TLBSize := by omega
  have hslotval : ∀ (j : Nat) (x : TranslationEntry), S[j]? = some x →
      x.valid = true ∧ x.FIFOFlag = (j : Int) ∧ j < cfg.TLBSize := by
    intro j x hx
    have hj : j < S.length := (List.getElem?_eq_some_iff.mp hx).1
    have hj' : j < es.length := by omega
    have h := hSlow j es[j] (List.getElem?_eq_getElem hj')
    rw [hx] at h; cases h
    exact ⟨hval es[j] (List.getElem_mem hj'), rfl, by omega⟩
  obtain ⟨i, hslot, hi, _, hvictim⟩ := updateTLBSlot_spec cfg S hSn hpos
  have hfind := hvictim (fun j x hx => (hslotval j x hx).1)
  have hrange : ∀ x ∈ S, x.FIFOFlag ≤ INT_MAX := by
    intro x hx
    obtain ⟨j, hj⟩ := List.mem_iff_getElem?.mp hx
    obtain ⟨_, hf, hlt⟩ := hslotval j x hj
    rw [hf]; unfold INT_MAX at *; omega
  obtain ⟨i', ei, hfind', hei, hmin, _⟩ := findOneToReplace_fifo_min cfg hF hL S 1
    (by rw [replaceLen_tlb]; exact hSn) (by omega) hrange
  rw [hfind] at hfind'; cases hfind'
  have h0 : S[0]? = some S[0] := List.getElem?_eq_getElem (by omega)
  have hi0 : i = 0 := by
    have h1 := hmin 0 _ h0
    rw [(hslotval i ei hei).2.1, (hslotval 0 _ h0).2.1] at h1
    omega
  subst hi0
  refine ⟨hslot, ?_⟩
  have hil : 0 < S.length := by omega
  have hil' : 0 < (S.set 0 E).length := by simpa using hil
  obtain ⟨v, hupd, hvmax, hvnone⟩ := updateFIFOFlag_value (S.set 0 E) 0 hil'
  have hlen' : (S.set 0 E).length = cfg.TLBSize := by simpa using hSn
  rw [hlen'] at hupd
  have hv : v = if cfg.TLBSize = 1 then 0 else (cfg.TLBSize : Int) := by
    by_cases h1 : cfg.TLBSize = 1
    · rw [if_pos h1]
      apply hvnone
      intro j y hy hne
      have hj : j < (S.set 0 E).length := (List.getElem?_eq_some_iff.mp hy).1
      omega
    · rw [if_neg h1]
      have hj : cfg.TLBSize - 1 < S.length := by omega
      have hM : IsMaxOther TranslationEntry.FIFOFlag (S.set 0 E) 0
          ((cfg.TLBSize - 1 : Nat) : Int) := by
        have hget : S[cfg.TLBSize - 1]? = some S[cfg.TLBSize - 1] :=
          List.getElem?_eq_getElem hj
        refine ⟨⟨cfg.TLBSize - 1, S[cfg.TLBSize - 1], ?_, (hslotval _ _ hget).1, by omega,
          (hslotval _ _ hget).2.1⟩, ?_⟩
        · rw [List.getElem?_set_ne (by omega)]; exact hget
        · intro j y hy _ hne
          rw [List.getElem?_set_ne (Ne.symm hne)] at hy
          obtain ⟨_, hf, hlt⟩ := hslotval j y hy
          rw [hf]; omega
      have := hvmax _ hM (by unfold INT_MAX at *; omega)
      rw [this, max_def]; split <;> omega
  have hupd2 : updateFIFOFlag (S.set 0 E) 0 cfg.TLBSize =
      some (S.set 0 { E with FIFOFlag := v }) := by
    rw [hupd]; simp
  rw [← hv]
  simp [updateTLB, hslot, hil, hF, hupd2]

/-! ## The LRU ordering -/

theorem updateLRUFlag_value (t : List TranslationEntry) (pos : Nat)
    (hpos : pos < t.length) :
    ∃ num : Int,
      updateLRUFlag t pos t.length
        = some (t.set pos { t[pos] with LRUFlag := wrapInt (num + 1) }) ∧
      -1 ≤ num ∧
      (∀ (j : Nat) (e : TranslationEntry), t[j]? = some e → e.valid = true → j ≠ pos →
        e.LRUFlag ≤ num) ∧
      (num = -1 ∨ ∃ (j : Nat) (e : TranslationEntry),
        t[j]? = some e ∧ e.valid = true ∧ j ≠ pos ∧ e.LRUFlag = num) := by
  obtain ⟨num, hfold, hupd⟩ := updateLRUFlag_eq t pos hpos
  obtain ⟨num', hfold', h1, h2, h3⟩ := maxScan_result TranslationEntry.LRUFlag t pos
  rw [hfold] at hfold'; cases hfold'
  exact ⟨num, hupd, h1, h2, h3⟩

/-- One `updateLRUFlag` on an all-valid array: the array afterwards, slot by
slot, with the bounds on the new counter. -/
theorem updateLRUFlag_touch (t : List TranslationEntry) (pos : Nat) (B : Int)
    (hpos : pos < t.length) (hvalid : ∀ x ∈ t, x.valid = true)
    (hB : ∀ (j : Nat) (e : TranslationEntry), t[j]? = some e → j ≠ pos → e.LRUFlag ≤ B)
    (hB1 : -1 ≤ B) (hB2 : B < INT_MAX) :
    ∃ (t' : List TranslationEntry) (c : Int),
      updateLRUFlag t pos t.length = some t' ∧ t'.length = t.length ∧
      (∀ x ∈ t', x.valid = true) ∧
      (∃ x, t'[pos]? = some x ∧ x.LRUFlag = c) ∧
      (∀ j : Nat, j ≠ pos → t'[j]? = t[j]?) ∧
      c ≤ B + 1 ∧ 0 ≤ c ∧
      (∀ (j : Nat) (e : TranslationEntry), t[j]? = some e → j ≠ pos → e.LRUFlag < c) := by
  obtain ⟨num, hupd, h1, h2, h3⟩ := updateLRUFlag_value t pos hpos
  have hle : num ≤ B := by
    rcases h3 with h3 | ⟨j, e, hje, _, hne, hf⟩
    · omega
    · rw [← hf]; exact hB j e hje hne
  have hw : wrapInt (num + 1) = num + 1 :=
    wrapInt_of_range _ (by unfold INT_MIN; omega) (by omega)
  rw [hw] at hupd
  refine ⟨_, num + 1, hupd, by simp, ?_, ⟨_, List.getElem?_set_self hpos, rfl⟩, ?_,
    by omega, by omega, ?_⟩
  · intro x hx
    obtain ⟨j, hj⟩ := List.mem_iff_getElem?.mp hx
    by_cases hjp : j = pos
    · subst hjp
      rw [List.getElem?_set_self hpos] at hj; cases hj
      exact hvalid t[j] (List.getElem_mem hpos)
    · rw [List.getElem?_set_ne (Ne.symm hjp)] at hj
      exact hvalid x (List.getElem?_mem hj)
  · intro j hne
    rw [List.getElem?_set_ne (Ne.symm hne)]
  · intro j e hje hne
    have := h2 j e hje (hvalid e (List.getElem?_mem hje)) hne
    omega

/-! ## The register array -/

theorem regLoad_ok (m : Machine) (k : Int) (h0 : 0 ≤ k)
    (h1 : k.toNat < m.registers.length) :
    regLoad m k = .ok (m.registers[k.toNat]) := by
  simp [regLoad, h0, List.getElem?_eq_getElem h1]

theorem regStore_ok (m : Machine) (k v : Int) (h0 : 0 ≤ k)
    (h1 : k.toNat < m.registers.length) :
    regStore m k v = .ok { m with registers := m.registers.set k.toNat v } := by
  simp [regStore, h0, h1]

/-! ## Dependence of the scans on the counters alone -/

theorem minBody_congr (flag : TranslationEntry → Int) (t t' : List TranslationEntry)
    (h : t.map flag = t'.map flag) : minBody flag t = minBody flag t' := by
  funext s i
  have hi : (t[i]?).map flag = (t'[i]?).map flag := by
    rw [← List.getElem?_map, ← List.getElem?_map, h]
  have key : ∀ o : Option TranslationEntry,
      o.map (fun e => if s.1 > flag e then (flag e, i) else s)
        = (o.map flag).map (fun f => if s.1 > f then (f, i) else s) := by
    intro o; cases o <;> rfl
  simp only [minBody, key, hi]

/-! ## Shape of the result of `updateTLB` -/

theorem updateFIFOFlag_num (t : List TranslationEntry) (pos : Nat)
    (hpos : pos < t.length) :
    ∃ num : Int,
      updateFIFOFlag t pos t.length
        = some (t.set pos { t[pos] with FIFOFlag := wrapInt (num + 1) }) ∧
      -1 ≤ num ∧
      (∀ (j : Nat) (e : TranslationEntry), t[j]? = some e → e.valid = true → j ≠ pos →
        e.FIFOFlag ≤ num) ∧
      (num = -1 ∨ ∃ (j : Nat) (e : TranslationEntry),
        t[j]? = some e ∧ e.valid = true ∧ j ≠ pos ∧ e.FIFOFlag = num) := by
  obtain ⟨num, hfold, hupd⟩ := updateFIFOFlag_eq t pos hpos
  obtain ⟨num', hfold', h1, h2, h3⟩ := maxScan_result TranslationEntry.FIFOFlag t pos
  rw [hfold] at hfold'; cases hfold'
  exact ⟨num, hupd, h1, h2, h3⟩

theorem updateTLB_fifo_step (cfg : Config) (hF : cfg.FIFO_REPLACE = true)
    (tlb : List TranslationEntry) (entry : TranslationEntry)
    (hlen : tlb.length = cfg.TLBSize) (hpos : 0 < cfg.TLBSize) :
    ∃ (i : Nat) (num : Int), updateTLBSlot cfg tlb = some i ∧ i < cfg.TLBSize ∧
      updateTLB cfg tlb entry
        = some (tlb.set i { entry with FIFOFlag := wrapInt (num + 1) }) ∧
      -1 ≤ num ∧
      (∀ (j : Nat) (e : TranslationEntry), tlb[j]? = some e → e.valid = true → j ≠ i →
        e.FIFOFlag ≤ num) ∧
      (num = -1 ∨ ∃ (j : Nat) (e : TranslationEntry),
        tlb[j]? = some e ∧ e.valid = true ∧ j ≠ i ∧ e.FIFOFlag = num) := by
  obtain ⟨i, hslot, hi, _, _⟩ := updateTLBSlot_spec cfg tlb hlen hpos
  have hil : i < tlb.length := by omega
  have hil' : i < (tlb.set i entry).length := by simpa using hil
  obtain ⟨num, hupd, h1, h2, h3⟩ := updateFIFOFlag_num (tlb.set i entry) i hil'
  have hlen' : (tlb.set i entry).length = cfg.TLBSize := by simpa using hlen
  rw [hlen'] at hupd
  have hupd2 : updateFIFOFlag (tlb.set i entry) i cfg.TLBSize =
      some (tlb.set i { entry with FIFOFlag := wrapInt (num + 1) }) := by
    rw [hupd]; simp
  refine ⟨i, num, hslot, hi, by simp [updateTLB, hslot, hil, hF, hupd2], h1, ?_, ?_⟩
  · intro j e hje hv hne
    exact h2 j e (by rw [List.getElem?_set_ne (Ne.symm hne)]; exact hje) hv hne
  · rcases h3 with h3 | ⟨j, e, hje, hv, hne, hf⟩
    · exact Or.inl h3
    · rw [List.getElem?_set_ne (Ne.symm hne)] at hje
      exact Or.inr ⟨j, e, hje, hv, hne, hf⟩

theorem updateTLB_shape (cfg : Config) (tlb : List TranslationEntry)
    (entry : TranslationEntry) (hlen : tlb.length = cfg.TLBSize)
    (hpos : 0 < cfg.TLBSize) :
    ∃ (i : Nat) (v : Int), updateTLBSlot cfg tlb = some i ∧ i < cfg.TLBSize ∧
      updateTLB cfg tlb entry = some (tlb.set i { entry with FIFOFlag := v }) ∧
      (cfg.FIFO_REPLACE = false → v = entry.FIFOFlag) := by
  cases hF : cfg.FIFO_REPLACE with
  | true =>
    obtain ⟨i, num, hslot, hi, hupd, _⟩ := updateTLB_fifo_step cfg hF tlb entry hlen hpos
    exact ⟨i, _, hslot, hi, hupd, fun h => by cases h⟩
  | false =>
    obtain ⟨i, hslot, hi, _, _⟩ := updateTLBSlot_spec cfg tlb hlen hpos
    have hil : i < tlb.length := by omega
    exact ⟨i, entry.FIFOFlag, hslot, hi, by simp [updateTLB, hslot, hil, hF], fun _ => rfl⟩

theorem updateFIFOFlag_frame (t : List TranslationEntry) (pos : Nat)
    (hpos : pos < t.length) :
    ∃ (t' : List TranslationEntry) (v : Int),
      updateFIFOFlag t pos t.length = some t' ∧ t'.length = t.length ∧
      (∀ j : Nat, j ≠ pos → t'[j]? = t[j]?) ∧
      t'[pos]? = some { t[pos] with FIFOFlag := v } := by
  obtain ⟨num, hupd, _⟩ := updateFIFOFlag_num t pos hpos
  refine ⟨_, wrapInt (num + 1), hupd, by simp, ?_, List.getElem?_set_self hpos⟩
  intro j hne
  rw [List.getElem?_set_ne (Ne.symm hne)]

theorem updateLRUFlag_frame (t : List TranslationEntry) (pos : Nat)
    (hpos : pos < t.length) :
    ∃ (t' : List TranslationEntry) (v : Int),
      updateLRUFlag t pos t.length = some t' ∧ t'.length = t.length ∧
      (∀ j : Nat, j ≠ pos → t'[j]? = t[j]?) ∧
      t'[pos]? = some { t[pos] with LRUFlag := v } := by
  obtain ⟨num, hupd, _⟩ := updateLRUFlag_value t pos hpos
  refine ⟨_, wrapInt (num + 1), hupd, by simp, ?_, List.getElem?_set_self hpos⟩
  intro j hne
  rw [List.getElem?_set_ne (Ne.symm hne)]

/-! ## The frame allocator -/

theorem lowestFree_some (b : Bitmap) (i : Nat) (h : Bitmap.lowestFree b = some i) :
    b[i]? = some false ∧ ∀ j : Nat, j < i → b[j]? = some true := by
  induction b generalizing i with
  | nil => simp [Bitmap.lowestFree] at h
  | cons x bs ih =>
    cases x with
    | false =>
      simp only [Bitmap.lowestFree, Option.some.injEq] at h
      subst h
      exact ⟨by simp, fun j hj => absurd hj (Nat.not_lt_zero j)⟩
    | true =>
      simp only [Bitmap.lowestFree, Option.map_eq_some'] at h
      obtain ⟨k, hk, rfl⟩ := h
      obtain ⟨h1, h2⟩ := ih k hk
      refine ⟨by simpa using h1, ?_⟩
      intro j hj
      cases j with
      | zero => simp
      | succ j => simpa using h2 j (by omega)

theorem lowestFree_none (b : Bitmap) :
    Bitmap.lowestFree b = none ↔ ∀ j : Nat, j < b.length → b[j]? = some true := by
  induction b with
  | nil => simp [Bitmap.lowestFree]
  | cons x bs ih =>
    cases x with
    | false =>
      simp only [Bitmap.lowestFree]
      constructor
      · intro h; cases h
      · intro h
        have := h 0 (by simp)
        simp at this
    | true =>
      simp only [Bitmap.lowestFree, Option.map_eq_none', ih]
      constructor
      · intro h j hj
        cases j with
        | zero => simp
        | succ j => simpa using h j (by simpa using hj)
      · intro h j hj
        simpa using h (j + 1) (by simpa using hj)

theorem findAvailablePageFrame_some (b : Bitmap) (f : Nat) (b1 : Bitmap)
    (h : findAvailablePageFrame b = (some f, b1)) :
    b[f]? = some false ∧ (∀ j : Nat, j < f → b[j]? = some true) ∧ b1 = b.set f true := by
  unfold findAvailablePageFrame Bitmap.FindAndSet at h
  cases hl : Bitmap.lowestFree b with
  | none => rw [hl] at h; simp at h
  | some i =>
    rw [hl] at h
    simp only [Prod.mk.injEq, Option.some.injEq] at h
    obtain ⟨rfl, rfl⟩ := h
    obtain ⟨h1, h2⟩ := lowestFree_some b i hl
    exact ⟨h1, h2, rfl⟩

theorem findAvailablePageFrame_none (b : Bitmap) :
    (findAvailablePageFrame b).1 = none ↔ ∀ j : Nat, j < b.length → b[j]? = some true := by
  rw [← lowestFree_none]
  unfold findAvailablePageFrame Bitmap.FindAndSet
  cases Bitmap.lowestFree b <;> simp

theorem findAvailablePageFrame_none_snd (b : Bitmap) (b1 : Bitmap)
    (h : findAvailablePageFrame b = (none, b1)) : b1 = b := by
  unfold findAvailablePageFrame Bitmap.FindAndSet at h
  cases hl : Bitmap.lowestFree b with
  | none => rw [hl] at h; simp at h; exact h.symm
  | some i => rw [hl] at h; simp at h

theorem frameStep_inv (n : Nat) (st st1 : Bitmap × List Nat) (op : FrameOp)
    (hinv : AllocInv n st) (hstep : frameStep st op = some st1) : AllocInv n st1 := by
  obtain ⟨hlen, hnd, hmem⟩ := hinv
  cases op with
  | allocate =>
    simp only [frameStep] at hstep
    cases hf : findAvailablePageFrame st.1 with
    | mk r b1 =>
      rw [hf] at hstep
      cases r with
      | none =>
        simp only [Option.some.injEq] at hstep
        subst hstep
        have := findAvailablePageFrame_none_snd st.1 b1 hf
        subst this
        exact ⟨hlen, hnd, hmem⟩
      | some f =>
        simp only [Option.some.injEq] at hstep
        subst hstep
        obtain ⟨h1, _, rfl⟩ := findAvailablePageFrame_some st.1 f b1 hf
        have hfl : f < st.1.length := (List.getElem?_eq_some_iff.mp h1).1
        have hnot : f ∉ st.2 := by
          intro hin
          have := (hmem f).mp hin
          rw [h1] at this; cases this
        refine ⟨by simpa using hlen, List.nodup_cons.mpr ⟨hnot, hnd⟩, ?_⟩
        intro g
        by_cases hg : g = f
        · subst hg
          simp [List.getElem?_set_self hfl]
        · simp only [List.mem_cons, hg, false_or]
          rw [List.getElem?_set_ne (Ne.symm hg)]
          exact hmem g
  | free f =>
    simp only [frameStep, Bitmap.free] at hstep
    by_cases hb : st.1[f]? = some true
    · rw [if_pos hb] at hstep
      simp only [Option.map_some', Option.some.injEq] at hstep
      subst hstep
      have hfl : f < st.1.length := (List.getElem?_eq_some_iff.mp hb).1
      refine ⟨by simpa using hlen, hnd.erase f, ?_⟩
      intro g
      rw [hnd.mem_erase_iff]
      by_cases hg : g = f
      · subst hg
        simp [List.getElem?_set_self hfl]
      · simp only [ne_eq, hg, not_false_eq_true, true_and]
        rw [List.getElem?_set_ne (Ne.symm hg)]
        exact hmem g
    · rw [if_neg hb] at hstep
      simp at hstep

theorem frameRun_inv (n : Nat) (ops : List FrameOp) (st st1 : Bitmap × List Nat)
    (hinv : AllocInv n st) (hrun : frameRun st ops = some st1) : AllocInv n st1 := by
  induction ops generalizing st with
  | nil =>
    simp only [frameRun, List.foldlM_nil, Option.pure_def, Option.some.injEq] at hrun
    subst hrun; exact hinv
  | cons op ops ih =>
    simp only [frameRun, List.foldlM_cons, Option.bind_eq_bind] at hrun
    cases hs : frameStep st op with
    | none => rw [hs] at hrun; simp at hrun
    | some s =>
      rw [hs] at hrun
      exact ih s (frameStep_inv n st s op hinv hs) hrun

theorem freshFrames_inv (n : Nat) : AllocInv n (freshFrames n) := by
  refine ⟨by simp [freshFrames], List.nodup_nil, ?_⟩
  intro f
  simp only [freshFrames, List.not_mem_nil, false_iff]
  intro h
  have := List.getElem?_mem h
  simp at this

/-! ## FIFO runs of any length -/

theorem wrapInt_le_max (x : Int) : wrapInt x ≤ INT_MAX := by
  unfold wrapInt INT_MAX; omega

theorem installStamped_inv (cfg : Config) (hF : cfg.FIFO_REPLACE = true)
    (k : Nat) (S : List TranslationEntry) (stamps : List (Option Nat))
    (e : TranslationEntry) (hpos : 0 < cfg.TLBSize) (hvalid : e.valid = true)
    (hk : cfg.TLBSize = 1 ∨ (k : Int) ≤ INT_MAX)
    (hinv : FifoInv cfg.TLBSize k S stamps) :
    ∃ (i : Nat) (v : Int), updateTLBSlot cfg S = some i ∧ i < cfg.TLBSize ∧
      updateTLB cfg S e = some (S.set i { e with FIFOFlag := v }) ∧
      installStamped cfg k (S, stamps) e
        = some (S.set i { e with FIFOFlag := v }, stamps.set i (some k)) ∧
      FifoInv cfg.TLBSize (k + 1) (S.set i { e with FIFOFlag := v })
        (stamps.set i (some k)) := by
  have hIM : INT_MAX = 2147483647 := rfl
  obtain ⟨hSlen, hstlen, hval, hstamped, hmono, hinj⟩ := hinv
  obtain ⟨i, num, hslot, hi, hupd, h1, h2, h3⟩ :=
    updateTLB_fifo_step cfg hF S e hSlen hpos
  have hiS : i < S.length := by omega
  have hist : i < stamps.length := by omega
  -- the counter written
  have hnum : num + 1 ≤ (k : Int) ∧ num < INT_MAX := by
    rcases h3 with h | ⟨j, x, hjx, hxv, hne, hf⟩
    · rcases hk with hk | hk <;> omega
    · have hj : j < S.length := (List.getElem?_eq_some_iff.mp hjx).1
      rcases hk with hk | hk
      · omega
      · obtain ⟨s, _, hs, _, hfs, _⟩ := hval j x hjx hxv
        omega
  have hw : wrapInt (num + 1) = num + 1 :=
    wrapInt_of_range _ (by unfold INT_MIN; omega) (by omega)
  rw [hw] at hupd
  have hvmax : num + 1 ≤ INT_MAX := by rw [← hw]; exact wrapInt_le_max _
  have hSi : (S.set i { e with FIFOFlag := num + 1 })[i]?
      = some { e with FIFOFlag := num + 1 } := List.getElem?_set_self hiS
  have hsti : (stamps.set i (some k))[i]? = some (some k) := List.getElem?_set_self hist
  have hSne : ∀ j : Nat, j ≠ i →
      (S.set i { e with FIFOFlag := num + 1 })[j]? = S[j]? :=
    fun j hne => List.getElem?_set_ne (Ne.symm hne)
  have hstne : ∀ j : Nat, j ≠ i → (stamps.set i (some k))[j]? = stamps[j]? :=
    fun j hne => List.getElem?_set_ne (Ne.symm hne)
  -- an old stamp is below `k`
  have hold : ∀ (j s : Nat), stamps[j]? = some (some s) → s < k := by
    intro j s hs
    obtain ⟨x, hx, hxv⟩ := hstamped j s hs
    obtain ⟨s', hs', hlt, _⟩ := hval j x hx hxv
    rw [hs] at hs'; cases hs'; exact hlt
  refine ⟨i, num + 1, hslot, hi, hupd, by simp [installStamped, hslot, hupd],
    by simpa using hSlen, by simpa using hstlen, ?_, ?_, ?_, ?_⟩
  · intro j x hjx hxv
    by_cases hji : j = i
    · subst hji
      rw [hSi] at hjx; cases hjx
      exact ⟨k, hsti, by omega, by show 0 ≤ num + 1; omega, hnum.1, hvmax⟩
    · rw [hSne j hji] at hjx
      obtain ⟨s, hs, hlt, h0, hfs, hfm⟩ := hval j x hjx hxv
      exact ⟨s, by rw [hstne j hji]; exact hs, by omega, h0, hfs, hfm⟩
  · intro j s hs
    by_cases hji : j = i
    · subst hji
      exact ⟨_, hSi, hvalid⟩
    · rw [hstne j hji] at hs
      obtain ⟨x, hx, hxv⟩ := hstamped j s hs
      exact ⟨x, by rw [hSne j hji]; exact hx, hxv⟩
  · intro a b sa sb ea eb ha hb hva hvb hsa hsb hlt
    by_cases hai : a = i
    · subst hai
      rw [hsti] at hsa; cases hsa
      by_cases hbi : b = a
      · subst hbi; rw [hsti] at hsb; cases hsb; omega
      · rw [hstne b hbi] at hsb
        have := hold b sb hsb; omega
    · rw [hSne a hai] at ha
      rw [hstne a hai] at hsa
      by_cases hbi : b = i
      · subst hbi
        rw [hSi] at hb; cases hb
        have := h2 a ea ha hva hai
        show ea.FIFOFlag < num + 1
        omega
      · rw [hSne b hbi] at hb
        rw [hstne b hbi] at hsb
        exact hmono a b sa sb ea eb ha hb hva hvb hsa hsb hlt
  · intro a b s hsa hsb
    by_cases hai : a = i
    · by_cases hbi : b = i
      · rw [hai, hbi]
      · subst hai
        rw [hsti] at hsa; cases hsa
        rw [hstne b hbi] at hsb
        have := hold b _ hsb; omega
    · rw [hstne a hai] at hsa
      by_cases hbi : b = i
      · subst hbi
        rw [hsti] at hsb; cases hsb
        have := hold a _ hsa; omega
      · rw [hstne b hbi] at hsb
        exact hinj a b s hsa hsb

theorem installFrom_inv (cfg : Config) (hF : cfg.FIFO_REPLACE = true)
    (es : List TranslationEntry) (k : Nat)
    (st : List TranslationEntry × List (Option Nat)) (hpos : 0 < cfg.TLBSize)
    (hvalid : ∀ e ∈ es, e.valid = true)
    (hk : cfg.TLBSize = 1 ∨ ((k + es.length : Nat) : Int) ≤ INT_MAX + 1)
    (hinv : FifoInv cfg.TLBSize k st.1 st.2) :
    ∃ st1, installFrom cfg k st es = some st1 ∧
      FifoInv cfg.TLBSize (k + es.length) st1.1 st1.2 := by
  induction es generalizing k st with
  | nil => exact ⟨st, rfl, hinv⟩
  | cons e es ih =>
    have hk1 : cfg.TLBSize = 1 ∨ (k : Int) ≤ INT_MAX := by
      rcases hk with hk | hk
      · exact Or.inl hk
      · right; simp only [List.length_cons] at hk; push_cast at hk ⊢; omega
    obtain ⟨i, v, _, _, _, hst, hinv1⟩ := installStamped_inv cfg hF k st.1 st.2 e hpos
      (hvalid e (List.mem_cons_self e es)) hk1 hinv
    have hk2 : cfg.TLBSize = 1 ∨ ((k + 1 + es.length : Nat) : Int) ≤ INT_MAX + 1 := by
      rcases hk with hk | hk
      · exact Or.inl hk
      · right; simp only [List.length_cons] at hk; push_cast at hk ⊢; omega
    obtain ⟨st1, hrun, hinv2⟩ := ih (k + 1)
      (st.1.set i { e with FIFOFlag := v }, st.2.set i (some k))
      (fun x hx => hvalid x (List.mem_cons_of_mem e hx)) hk2 hinv1
    refine ⟨st1, ?_, ?_⟩
    · simp only [installFrom, hst, Option.some_bind, hrun]
    · have : k + (e :: es).length = k + 1 + es.length := by simp; omega
      rw [this]; exact hinv2

theorem installFrom_fst (cfg : Config) (es : List TranslationEntry) (k : Nat)
    (st : List TranslationEntry × List (Option Nat)) :
    (installFrom cfg k st es).map Prod.fst = installAll cfg st.1 es := by
  induction es generalizing k st with
  | nil => rfl
  | cons e es ih =>
    simp only [installFrom, installAll, List.foldlM_cons, installStamped]
    cases hs : updateTLBSlot cfg st.1 with
    | none => simp [updateTLB, hs]
    | some i =>
      cases hu : updateTLB cfg st.1 e with
      | none => simp
      | some S1 =>
        simp only [Option.bind_eq_bind, Option.some_bind, Option.pure_def]
        exact ih (k + 1) (S1, st.2.set i (some k))

theorem freshStamps_inv (t0 : List TranslationEntry)
    (hinv : ∀ x ∈ t0, x.valid = false) : FifoInv t0.length 0 t0
      (List.replicate t0.length none) := by
  refine ⟨rfl, by simp, ?_, ?_, ?_, ?_⟩
  · intro j e hje hv
    have := hinv e (List.getElem?_mem hje)
    rw [hv] at this; cases this
  · intro j s hs
    have := List.getElem?_mem hs
    simp at this
  · intro i j si sj ei ej hi _ hvi
    have := hinv ei (List.getElem?_mem hi)
    rw [hvi] at this; cases this
  · intro i j s hs
    have := List.getElem?_mem hs
    simp at this

/-- A FIFO run from an all-invalid TLB: it succeeds, and its instrumented state
satisfies the invariant. -/
theorem fifo_run (cfg : Config) (hF : cfg.FIFO_REPLACE = true)
    (t0 es : List TranslationEntry) (hlen : t0.length = cfg.TLBSize)
    (hpos : 0 < cfg.TLBSize) (hinv : ∀ x ∈ t0, x.valid = false)
    (hvalid : ∀ e ∈ es, e.valid = true)
    (hk : cfg.TLBSize = 1 ∨ (es.length : Int) ≤ INT_MAX + 1) :
    ∃ (S : List TranslationEntry) (stamps : List (Option Nat)),
      installFrom cfg 0 (freshStamps t0) es = some (S, stamps) ∧
      installAll cfg t0 es = some S ∧ FifoInv cfg.TLBSize es.length S stamps := by
  have h0 : FifoInv cfg.TLBSize 0 (freshStamps t0).1 (freshStamps t0).2 := by
    rw [← hlen]; exact freshStamps_inv t0 hinv
  obtain ⟨st1, hrun, hinv1⟩ := installFrom_inv cfg hF es 0 (freshStamps t0) hpos hvalid
    (by simpa using hk) h0
  refine ⟨st1.1, st1.2, hrun, ?_, by simpa using hinv1⟩
  have := installFrom_fst cfg es 0 (freshStamps t0)
  rw [hrun] at this
  exact this.symm

/-! # The claims -/

/-- C1. On an array of `len ≥ 1` entries with `int` counters,
`findOneToReplace` returns an index whose policy counter (`FIFOFlag` in a FIFO
build, `LRUFlag` in an LRU build) is the minimum over all `len` slots, and no
slot before it holds a counter equal to that minimum. -/
theorem findOneToReplace_min_lowest (cfg : Config) (t : List TranslationEntry)
    (type : Int) (hlen : t.length = replaceLen cfg type) (hpos : 1 ≤ t.length)
    (hr : ∀ e ∈ t, e.CountersInt32) :
    (cfg.FIFO_REPLACE = true → cfg.LRU_REPLACE = false →
      ∃ i e, findOneToReplace cfg t type = some i ∧ t[i]? = some e ∧
        (∀ (j : Nat) (ej : TranslationEntry), t[j]? = some ej → e.FIFOFlag ≤ ej.FIFOFlag) ∧
        (∀ (j : Nat) (ej : TranslationEntry), j < i → t[j]? = some ej → ej.FIFOFlag ≠ e.FIFOFlag)) ∧
    (cfg.FIFO_REPLACE = false → cfg.LRU_REPLACE = true →
      ∃ i e, findOneToReplace cfg t type = some i ∧ t[i]? = some e ∧
        (∀ (j : Nat) (ej : TranslationEntry), t[j]? = some ej → e.LRUFlag ≤ ej.LRUFlag) ∧
        (∀ (j : Nat) (ej : TranslationEntry), j < i → t[j]? = some ej → ej.LRUFlag ≠ e.LRUFlag)) := by
  constructor
  · intro hF hL
    obtain ⟨i, e, hfind, he, hmin, hlow⟩ :=
      findOneToReplace_fifo_min cfg hF hL t type hlen hpos (fun e he => (hr e he).1.2)
    exact ⟨i, e, hfind, he, hmin, fun j ej hj hje => ne_of_gt (hlow j ej hj hje)⟩
  · intro hF hL
    obtain ⟨i, e, hfind, he, hmin, hlow⟩ :=
      findOneToReplace_lru_min cfg hF hL t type hlen hpos (fun e he => (hr e he).2.2)
    exact ⟨i, e, hfind, he, hmin, fun j ej hj hje => ne_of_gt (hlow j ej hj hje)⟩

/-- C1, concrete instance: three slots with FIFO counters 5, 2, 2 give slot 1. -/
theorem findOneToReplace_min_lowest_witness :
    (∃ i e, findOneToReplace (fifoConfig 3) [page 1 5 0, page 2 2 0, page 3 2 0] 1 = some i ∧
        [page 1 5 0, page 2 2 0, page 3 2 0][i]? = some e ∧
        (∀ (j : Nat) (ej : TranslationEntry),
          [page 1 5 0, page 2 2 0, page 3 2 0][j]? = some ej → e.FIFOFlag ≤ ej.FIFOFlag) ∧
        (∀ (j : Nat) (ej : TranslationEntry), j < i →
          [page 1 5 0, page 2 2 0, page 3 2 0][j]? = some ej → ej.FIFOFlag ≠ e.FIFOFlag)) ∧
    findOneToReplace (fifoConfig 3) [page 1 5 0, page 2 2 0, page 3 2 0] 1 = some 1 :=
  ⟨(findOneToReplace_min_lowest (fifoConfig 3) [page 1 5 0, page 2 2 0, page 3 2 0] 1
      (by decide) (by decide) (by decide)).1 rfl rfl, by decide⟩

/-- C2. On a TLB of `TLBSize ≥ 1` slots `updateTLB` succeeds and writes slot
`i`, where `i` is the first slot with a clear `valid` bit when there is one and
the result of `findOneToReplace` on the TLB before the call when every slot is
valid. Afterwards slot `i` holds `entry`, in a build with `FIFO_REPLACE` with
its `FIFOFlag` replaced by the value `updateFIFOFlag` computes. -/
theorem updateTLB_installs (cfg : Config) (tlb : List TranslationEntry)
    (entry : TranslationEntry) (hlen : tlb.length = cfg.TLBSize)
    (hpos : 0 < cfg.TLBSize) :
    ∃ i tlb', updateTLBSlot cfg tlb = some i ∧ i < cfg.TLBSize ∧
      updateTLB cfg tlb entry = some tlb' ∧
      ((∃ (j : Nat) (e : TranslationEntry), tlb[j]? = some e ∧ e.valid = false) →
        (∃ e, tlb[i]? = some e ∧ e.valid = false) ∧
        ∀ (j : Nat) (e : TranslationEntry), j < i → tlb[j]? = some e → e.valid = true) ∧
      ((∀ (j : Nat) (e : TranslationEntry), tlb[j]? = some e → e.valid = true) →
        findOneToReplace cfg tlb 1 = some i) ∧
      (cfg.FIFO_REPLACE = false → tlb'[i]? = some entry) ∧
      (cfg.FIFO_REPLACE = true →
        updateFIFOFlag (tlb.set i entry) i cfg.TLBSize = some tlb' ∧
        ∃ v, tlb'[i]? = some { entry with FIFOFlag := v } ∧
          (∀ M : Int, IsMaxOther TranslationEntry.FIFOFlag tlb i M → M < INT_MAX →
            v = 1 + max M (-1)) ∧
          (NoOtherValid tlb i → v = 0)) := by
  obtain ⟨i, hslot, hi, hfirst, hvictim⟩ := updateTLBSlot_spec cfg tlb hlen hpos
  have hil : i < tlb.length := by omega
  cases hF : cfg.FIFO_REPLACE with
  | false =>
    refine ⟨i, tlb.set i entry, hslot, hi, ?_, hfirst, hvictim, ?_, ?_⟩
    · simp [updateTLB, hslot, hil, hF]
    · intro _; simp [hil]
    · intro h; cases h
  | true =>
    have hil' : i < (tlb.set i entry).length := by simpa using hil
    obtain ⟨v, hupd, hmax, hnone⟩ := updateFIFOFlag_value (tlb.set i entry) i hil'
    have hlen' : (tlb.set i entry).length = cfg.TLBSize := by simpa using hlen
    rw [hlen'] at hupd
    refine ⟨i, (tlb.set i entry).set i { (tlb.set i entry)[i] with FIFOFlag := v },
      hslot, hi, ?_, hfirst, hvictim, ?_, ?_⟩
    · simp [updateTLB, hslot, hil, hF, hupd]
    · intro h; cases h
    · intro _
      refine ⟨hupd, v, by simp [hil], ?_, ?_⟩
      · intro M hM hlt
        exact hmax M (isMaxOther_set _ tlb i entry M hM) hlt
      · intro hN
        exact hnone (noOtherValid_set tlb i entry hN)

/-- C2, concrete instance: a two-slot FIFO TLB whose slot 1 is free. -/
theorem updateTLB_installs_witness :
    (∃ i tlb', updateTLBSlot (fifoConfig 2) [page 10 0 0, emptySlot] = some i ∧
      i < (fifoConfig 2).TLBSize ∧
      updateTLB (fifoConfig 2) [page 10 0 0, emptySlot] (page 11 7 0) = some tlb' ∧
      ((∃ (j : Nat) (e : TranslationEntry),
          [page 10 0 0, emptySlot][j]? = some e ∧ e.valid = false) →
        (∃ e, [page 10 0 0, emptySlot][i]? = some e ∧ e.valid = false) ∧
        ∀ (j : Nat) (e : TranslationEntry), j < i →
          [page 10 0 0, emptySlot][j]? = some e → e.valid = true) ∧
      ((∀ (j : Nat) (e : TranslationEntry),
          [page 10 0 0, emptySlot][j]? = some e → e.valid = true) →
        findOneToReplace (fifoConfig 2) [page 10 0 0, emptySlot] 1 = some i) ∧
      ((fifoConfig 2).FIFO_REPLACE = false → tlb'[i]? = some (page 11 7 0)) ∧
      ((fifoConfig 2).FIFO_REPLACE = true →
        updateFIFOFlag ([page 10 0 0, emptySlot].set i (page 11 7 0)) i
          (fifoConfig 2).TLBSize = some tlb' ∧
        ∃ v, tlb'[i]? = some { page 11 7 0 with FIFOFlag := v } ∧
          (∀ M : Int, IsMaxOther TranslationEntry.FIFOFlag [page 10 0 0, emptySlot] i M →
            M < INT_MAX → v = 1 + max M (-1)) ∧
          (NoOtherValid [page 10 0 0, emptySlot] i → v = 0))) ∧
    updateTLB (fifoConfig 2) [page 10 0 0, emptySlot] (page 11 7 0)
      = some [page 10 0 0, page 11 1 0] :=
  ⟨updateTLB_installs (fifoConfig 2) [page 10 0 0, emptySlot] (page 11 7 0) rfl
    (by decide), by decide⟩

/-- C3, as stated, fails: with one other valid entry of counter `-5` the new
counter is `0`, not `1 + (-5)`; with one other valid entry of counter `INT_MAX`
the new counter is `INT_MIN`, not `1 + INT_MAX`. -/
theorem updateFIFOFlag_counterexample :
    (IsMaxOther TranslationEntry.FIFOFlag [page 1 7 0, page 2 (-5) 0] 0 (-5) ∧
      updateFIFOFlag [page 1 7 0, page 2 (-5) 0] 0 2
        = some [page 1 0 0, page 2 (-5) 0] ∧
      (page 1 0 0).FIFOFlag ≠ 1 + (-5)) ∧
    (IsMaxOther TranslationEntry.FIFOFlag [page 1 7 0, page 2 INT_MAX 0] 0 INT_MAX ∧
      updateFIFOFlag [page 1 7 0, page 2 INT_MAX 0] 0 2
        = some [page 1 INT_MIN 0, page 2 INT_MAX 0] ∧
      (page 1 INT_MIN 0).FIFOFlag ≠ 1 + INT_MAX) := by
  refine ⟨⟨⟨⟨1, page 2 (-5) 0, rfl, rfl, by decide, rfl⟩, ?_⟩, by decide, by decide⟩,
    ⟨⟨⟨1, page 2 INT_MAX 0, rfl, rfl, by decide, rfl⟩, ?_⟩, by decide, by decide⟩⟩
  · intro j e hje hv hne
    match j, hje with
    | 0, _ => exact absurd rfl hne
    | 1, h => cases h; exact le_refl _
    | (n + 2), h => simp at h
  · intro j e hje hv hne
    match j, hje with
    | 0, _ => exact absurd rfl hne
    | 1, h => cases h; exact le_refl _
    | (n + 2), h => simp at h

/-- C3 (amended). For `pos < len`, `updateFIFOFlag` succeeds and leaves in slot
`pos` the entry it held with `FIFOFlag` set to `1 + max M (-1)` when `M`, the
largest `FIFOFlag` of the valid entries at the other indices, is below
`INT_MAX`, and set to `0` when no other entry is valid. -/
theorem updateFIFOFlag_next_sequence (t : List TranslationEntry) (pos : Nat)
    (hpos : pos < t.length) :
    ∃ t', updateFIFOFlag t pos t.length = some t' ∧
      (∀ M : Int, IsMaxOther TranslationEntry.FIFOFlag t pos M → M < INT_MAX →
        t'[pos]? = some { t[pos] with FIFOFlag := 1 + max M (-1) }) ∧
      (NoOtherValid t pos → t'[pos]? = some { t[pos] with FIFOFlag := 0 }) := by
  obtain ⟨v, hupd, hmax, hnone⟩ := updateFIFOFlag_value t pos hpos
  refine ⟨_, hupd, ?_, ?_⟩
  · intro M hM hlt
    simp [hpos, hmax M hM hlt]
  · intro hN
    simp [hpos, hnone hN]

/-- C3 (amended), concrete instance: counters 7, 3, 9 with slot 2 invalid. -/
theorem updateFIFOFlag_next_sequence_witness :
    ∃ t', updateFIFOFlag [page 1 7 0, page 2 3 0, { page 3 9 0 with valid := false }] 0
          [page 1 7 0, page 2 3 0, { page 3 9 0 with valid := false }].length = some t' ∧
      (∀ M : Int, IsMaxOther TranslationEntry.FIFOFlag
          [page 1 7 0, page 2 3 0, { page 3 9 0 with valid := false }] 0 M → M < INT_MAX →
        t'[0]? = some { page 1 7 0 with FIFOFlag := 1 + max M (-1) }) ∧
      (NoOtherValid [page 1 7 0, page 2 3 0, { page 3 9 0 with valid := false }] 0 →
        t'[0]? = some { page 1 7 0 with FIFOFlag := 0 }) :=
  updateFIFOFlag_next_sequence
    [page 1 7 0, page 2 3 0, { page 3 9 0 with valid := false }] 0 (by decide)

/-- C4, as stated, fails: when another valid entry has `LRUFlag = INT_MAX`,
slot `pos` gets `INT_MIN`, which is not greater than that counter. -/
theorem updateLRUFlag_counterexample :
    updateLRUFlag [page 1 0 5, page 2 0 INT_MAX] 0 2
        = some [page 1 0 INT_MIN, page 2 0 INT_MAX] ∧
      (page 2 0 INT_MAX).valid = true ∧
      ¬ ((page 2 0 INT_MAX).LRUFlag < (page 1 0 INT_MIN).LRUFlag) := by
  decide

/-- C4 (amended). For `pos < len`, when every valid entry at another index has
`LRUFlag < INT_MAX`, `updateLRUFlag` succeeds and afterwards the `LRUFlag` of
slot `pos` is strictly greater than that of every valid entry at another index;
the function is `updateFIFOFlag` with the roles of the two counters exchanged. -/
theorem updateLRUFlag_strictly_newest (t : List TranslationEntry) (pos : Nat)
    (hpos : pos < t.length)
    (hno : ∀ (j : Nat) (e : TranslationEntry), t[j]? = some e → e.valid = true →
      j ≠ pos → e.LRUFlag < INT_MAX) :
    (∃ t' ep, updateLRUFlag t pos t.length = some t' ∧ t'[pos]? = some ep ∧
      t'.length = t.length ∧
      (∀ (j : Nat) (e : TranslationEntry), t'[j]? = some e → e.valid = true → j ≠ pos →
        e.LRUFlag < ep.LRUFlag)) ∧
    updateLRUFlag t pos t.length =
      (updateFIFOFlag (t.map swapFlags) pos t.length).map (List.map swapFlags) := by
  refine ⟨?_, updateLRUFlag_eq_swap t pos t.length⟩
  obtain ⟨num, hfold, hupd⟩ := updateLRUFlag_eq t pos hpos
  obtain ⟨num', hfold', h1, h2, h3⟩ := maxScan_result TranslationEntry.LRUFlag t pos
  rw [hfold] at hfold'; cases hfold'
  have hlt : num < INT_MAX := by
    rcases h3 with h3 | ⟨j, e, hje, hv, hne, hf⟩
    · rw [h3]; decide
    · rw [← hf]; exact hno j e hje hv hne
  have hw : wrapInt (num + 1) = num + 1 :=
    wrapInt_of_range _ (by unfold INT_MIN; omega) (by omega)
  refine ⟨_, { t[pos] with LRUFlag := num + 1 }, hupd, by simp [hpos, hw], by simp, ?_⟩
  intro j e hje hv hne
  rw [List.getElem?_set_ne (Ne.symm hne)] at hje
  have := h2 j e hje hv hne
  show e.LRUFlag < num + 1
  omega

/-- C4 (amended), concrete instance: counters 5, 9, 2 and `pos = 2`. -/
theorem updateLRUFlag_strictly_newest_witness :
    (∃ t' ep, updateLRUFlag [page 1 0 5, page 2 0 9, page 3 0 2] 2
          [page 1 0 5, page 2 0 9, page 3 0 2].length = some t' ∧
        t'[2]? = some ep ∧ t'.length = [page 1 0 5, page 2 0 9, page 3 0 2].length ∧
        (∀ (j : Nat) (e : TranslationEntry), t'[j]? = some e → e.valid = true → j ≠ 2 →
          e.LRUFlag < ep.LRUFlag)) ∧
      updateLRUFlag [page 1 0 5, page 2 0 9, page 3 0 2] 2
          [page 1 0 5, page 2 0 9, page 3 0 2].length =
        (updateFIFOFlag ([page 1 0 5, page 2 0 9, page 3 0 2].map swapFlags) 2
          [page 1 0 5, page 2 0 9, page 3 0 2].length).map (List.map swapFlags) :=
  updateLRUFlag_strictly_newest [page 1 0 5, page 2 0 9, page 3 0 2] 2 (by decide)
    (by
      intro j e hje _ _
      match j, hje with
      | 0, h => cases h; decide
      | 1, h => cases h; decide
      | 2, h => cases h; decide
      | (n + 3), h => simp at h)

/-- C5. FIFO ordering law: after `n ≥ 1` valid entries have been installed by
`updateTLB` into an all-invalid TLB of `n` slots in a FIFO build, every one of
them is resident and valid (slot `j` holds the `j`-th entry, up to its
`FIFOFlag`), the slot of the first entry has the strictly lowest `FIFOFlag`, and
the next `updateTLB` writes that slot and no other. -/
theorem fifo_ordering_law (cfg : Config) (hF : cfg.FIFO_REPLACE = true)
    (hL : cfg.LRU_REPLACE = false) (t0 es : List TranslationEntry)
    (E : TranslationEntry) (hpos : 1 ≤ cfg.TLBSize)
    (hmax : (cfg.TLBSize : Int) ≤ INT_MAX) (hlen : t0.length = cfg.TLBSize)
    (hinv : ∀ x ∈ t0, x.valid = false) (hes : es.length = cfg.TLBSize)
    (hval : ∀ x ∈ es, x.valid = true) :
    ∃ S S', installAll cfg t0 es = some S ∧ S.length = cfg.TLBSize ∧
      (∀ (j : Nat) (e : TranslationEntry), es[j]? = some e →
        ∃ x, S[j]? = some x ∧ x.valid = true ∧ x = { e with FIFOFlag := x.FIFOFlag }) ∧
      (∀ (j : Nat) (x0 x : TranslationEntry), S[0]? = some x0 → S[j]? = some x → j ≠ 0 →
        x0.FIFOFlag < x.FIFOFlag) ∧
      updateTLBSlot cfg S = some 0 ∧
      updateTLB cfg S E = some S' ∧
      (∃ v, S'[0]? = some { E with FIFOFlag := v }) ∧
      (∀ j : Nat, j ≠ 0 → S'[j]? = S[j]?) := by
  obtain ⟨S, hS, hinst⟩ := installAll_installed cfg hF t0 es hlen hmax hinv hval (by omega)
  obtain ⟨hslot, hupd⟩ := install_into_full cfg hF hL t0 es S E hpos hmax hlen hes hval hinst
  obtain ⟨hSlen, hSlow, _⟩ := hinst
  have hget : ∀ (j : Nat) (x : TranslationEntry), S[j]? = some x → x.FIFOFlag = (j : Int) := by
    intro j x hx
    have hj : j < es.length := by
      have := (List.getElem?_eq_some_iff.mp hx).1; omega
    have h := hSlow j es[j] (List.getElem?_eq_getElem hj)
    rw [hx] at h; cases h; rfl
  have hS0 : 0 < S.length := by omega
  refine ⟨S, _, hS, by omega, ?_, ?_, hslot, hupd,
    ⟨_, by rw [List.getElem?_set_self hS0]⟩, ?_⟩
  · intro j e he
    exact ⟨_, hSlow j e he, hval e (List.getElem?_mem he), rfl⟩
  · intro j x0 x hx0 hx hne
    rw [hget 0 x0 hx0, hget j x hx]
    have : 0 < j := Nat.pos_of_ne_zero hne
    omega
  · intro j hne
    rw [List.getElem?_set_ne (Ne.symm hne)]

/-- C5, concrete instance: two slots, pages 10 and 11, then page 12. -/
theorem fifo_ordering_law_witness :
    ∃ S S', installAll (fifoConfig 2) [emptySlot, emptySlot] [page 10 7 0, page 11 7 0]
        = some S ∧ S.length = (fifoConfig 2).TLBSize ∧
      (∀ (j : Nat) (e : TranslationEntry), [page 10 7 0, page 11 7 0][j]? = some e →
        ∃ x, S[j]? = some x ∧ x.valid = true ∧ x = { e with FIFOFlag := x.FIFOFlag }) ∧
      (∀ (j : Nat) (x0 x : TranslationEntry), S[0]? = some x0 → S[j]? = some x → j ≠ 0 →
        x0.FIFOFlag < x.FIFOFlag) ∧
      updateTLBSlot (fifoConfig 2) S = some 0 ∧
      updateTLB (fifoConfig 2) S (page 12 7 0) = some S' ∧
      (∃ v, S'[0]? = some { page 12 7 0 with FIFOFlag := v }) ∧
      (∀ j : Nat, j ≠ 0 → S'[j]? = S[j]?) :=
  fifo_ordering_law (fifoConfig 2) rfl rfl [emptySlot, emptySlot]
    [page 10 7 0, page 11 7 0] (page 12 7 0) (by decide) (by decide) rfl (by decide) rfl
    (by decide)

/-- C6, as stated, fails: with prior `LRUFlag` values 0, 0 and `INT_MAX` in
slots 0, 1, 2, touching slot 1, then slot 0, then slot 2 leaves slots 0 and 1
both at `INT_MIN`, and the victim is slot 0 (the entry touched second), not
slot 1 (the entry touched first). -/
theorem lru_ordering_counterexample :
    updateLRUFlag [page 1 0 0, page 2 0 0, page 3 0 INT_MAX] 1 3
        = some [page 1 0 0, page 2 0 INT_MIN, page 3 0 INT_MAX] ∧
      updateLRUFlag [page 1 0 0, page 2 0 INT_MIN, page 3 0 INT_MAX] 0 3
        = some [page 1 0 INT_MIN, page 2 0 INT_MIN, page 3 0 INT_MAX] ∧
      updateLRUFlag [page 1 0 INT_MIN, page 2 0 INT_MIN, page 3 0 INT_MAX] 2 3
        = some [page 1 0 INT_MIN, page 2 0 INT_MIN, page 3 0 0] ∧
      findOneToReplace (lruConfig 3) [page 1 0 INT_MIN, page 2 0 INT_MIN, page 3 0 0] 1
        = some 0 ∧
      (0 : Nat) ≠ 1 := by
  decide

/-- C6 (amended). LRU ordering law: in a full structure of three valid entries
in slots `p1`, `p2`, `p3`, when the prior `LRUFlag` of the entries in `p1` and
`p3` is at most `INT_MAX - 3`, after `updateLRUFlag` on `p2`, then `p1`, then
`p3`, `findOneToReplace` in an LRU build returns `p2`. Scenario: two slots, A
and B installed and touched in that order, A touched again; the victim is the
slot of B. -/
theorem lru_ordering_law (cfg : Config) (hF : cfg.FIFO_REPLACE = false)
    (hL : cfg.LRU_REPLACE = true) (t : List TranslationEntry) (type : Int)
    (p1 p2 p3 : Nat) (hlen : t.length = 3) (hscan : replaceLen cfg type = 3)
    (hvalid : ∀ x ∈ t, x.valid = true)
    (h12 : p1 ≠ p2) (h13 : p1 ≠ p3) (h23 : p2 ≠ p3)
    (hp1 : p1 < 3) (hp2 : p2 < 3) (hp3 : p3 < 3)
    (hprior : ∀ (j : Nat) (e : TranslationEntry), t[j]? = some e → j ≠ p2 →
      e.LRUFlag ≤ INT_MAX - 3) :
    (∃ t1 t2 t3, updateLRUFlag t p2 3 = some t1 ∧ updateLRUFlag t1 p1 3 = some t2 ∧
      updateLRUFlag t2 p3 3 = some t3 ∧ findOneToReplace cfg t3 type = some p2) ∧
    (updateTLB (lruConfig 2) [emptySlot, emptySlot] (page 10 0 0)
        = some [page 10 0 0, emptySlot] ∧
      updateLRUFlag [page 10 0 0, emptySlot] 0 2 = some [page 10 0 0, emptySlot] ∧
      updateTLB (lruConfig 2) [page 10 0 0, emptySlot] (page 11 0 0)
        = some [page 10 0 0, page 11 0 0] ∧
      updateLRUFlag [page 10 0 0, page 11 0 0] 1 2 = some [page 10 0 0, page 11 0 1] ∧
      updateLRUFlag [page 10 0 0, page 11 0 1] 0 2 = some [page 10 0 2, page 11 0 1] ∧
      findOneToReplace (lruConfig 2) [page 10 0 2, page 11 0 1] 1 = some 1) := by
  refine ⟨?_, by decide⟩
  have hIM : INT_MAX = 2147483647 := rfl
  -- first touch: slot `p2`
  obtain ⟨t1, a, hu1, hl1, hv1, ⟨x1, hx1, hx1a⟩, hk1, ha1, _, _⟩ :=
    updateLRUFlag_touch t p2 (INT_MAX - 3) (by omega) hvalid hprior (by omega) (by omega)
  -- second touch: slot `p1`
  have hB1 : ∀ (j : Nat) (e : TranslationEntry), t1[j]? = some e → j ≠ p1 →
      e.LRUFlag ≤ INT_MAX - 2 := by
    intro j e hje hne
    by_cases hj2 : j = p2
    · subst hj2; rw [hx1] at hje; cases hje; omega
    · rw [hk1 j hj2] at hje
      have := hprior j e hje hj2; omega
  obtain ⟨t2, b, hu2, hl2, hv2, ⟨x2, hx2, hx2b⟩, hk2, hb1, _, hlt2⟩ :=
    updateLRUFlag_touch t1 p1 (INT_MAX - 2) (by omega) hv1 hB1 (by omega) (by omega)
  have hab : a < b := by
    have := hlt2 p2 x1 hx1 (Ne.symm h12); omega
  have hx1' : t2[p2]? = some x1 := by rw [hk2 p2 (Ne.symm h12)]; exact hx1
  -- third touch: slot `p3`
  have hB2 : ∀ (j : Nat) (e : TranslationEntry), t2[j]? = some e → j ≠ p3 →
      e.LRUFlag ≤ INT_MAX - 1 := by
    intro j e hje hne
    have hj : j < t2.length := (List.getElem?_eq_some_iff.mp hje).1
    have hcase : j = p1 ∨ j = p2 := by omega
    rcases hcase with h | h
    · subst h; rw [hx2] at hje; cases hje; omega
    · subst h; rw [hx1'] at hje; cases hje; omega
  obtain ⟨t3, c, hu3, hl3, hv3, ⟨x3, hx3, hx3c⟩, hk3, hc1, _, hlt3⟩ :=
    updateLRUFlag_touch t2 p3 (INT_MAX - 1) (by omega) hv2 hB2 (by omega) (by omega)
  have hac : a < c := by
    have := hlt3 p2 x1 hx1' h23; omega
  have hx1'' : t3[p2]? = some x1 := by rw [hk3 p2 h23]; exact hx1'
  have hx2' : t3[p1]? = some x2 := by rw [hk3 p1 h13]; exact hx2
  -- the victim
  have hslots : ∀ (j : Nat) (e : TranslationEntry), t3[j]? = some e →
      (j = p1 ∧ e = x2) ∨ (j = p2 ∧ e = x1) ∨ (j = p3 ∧ e = x3) := by
    intro j e hje
    have hj : j < t3.length := (List.getElem?_eq_some_iff.mp hje).1
    have hcase : j = p1 ∨ j = p2 ∨ j = p3 := by omega
    rcases hcase with h | h | h
    · subst h; rw [hx2'] at hje; cases hje; exact Or.inl ⟨rfl, rfl⟩
    · subst h; rw [hx1''] at hje; cases hje; exact Or.inr (Or.inl ⟨rfl, rfl⟩)
    · subst h; rw [hx3] at hje; cases hje; exact Or.inr (Or.inr ⟨rfl, rfl⟩)
  have hrange : ∀ e ∈ t3, e.LRUFlag ≤ INT_MAX := by
    intro e he
    obtain ⟨j, hj⟩ := List.mem_iff_getElem?.mp he
    rcases hslots j e hj with ⟨_, h⟩ | ⟨_, h⟩ | ⟨_, h⟩ <;> subst h <;> omega
  obtain ⟨i, ei, hfind, hei, hmin, _⟩ := findOneToReplace_lru_min cfg hF hL t3 type
    (by omega) (by omega) hrange
  have hle := hmin p2 x1 hx1''
  have hi : i = p2 := by
    rcases hslots i ei hei with ⟨h, he⟩ | ⟨h, _⟩ | ⟨h, he⟩
    · subst he; omega
    · exact h
    · subst he; omega
  rw [hl1, hlen] at hu2
  rw [hl2, hl1, hlen] at hu3
  rw [hlen] at hu1
  exact ⟨t1, t2, t3, hu1, hu2, hu3, by rw [hfind, hi]⟩

/-- C6 (amended), concrete instance: prior counters 4, 9, 1 in slots 0, 1, 2,
touched in the order slot 2, slot 0, slot 1. -/
theorem lru_ordering_law_witness :
    (∃ t1 t2 t3, updateLRUFlag [page 1 0 4, page 2 0 9, page 3 0 1] 2 3 = some t1 ∧
      updateLRUFlag t1 0 3 = some t2 ∧ updateLRUFlag t2 1 3 = some t3 ∧
      findOneToReplace (lruConfig 3) t3 1 = some 2) ∧
    (updateTLB (lruConfig 2) [emptySlot, emptySlot] (page 10 0 0)
        = some [page 10 0 0, emptySlot] ∧
      updateLRUFlag [page 10 0 0, emptySlot] 0 2 = some [page 10 0 0, emptySlot] ∧
      updateTLB (lruConfig 2) [page 10 0 0, emptySlot] (page 11 0 0)
        = some [page 10 0 0, page 11 0 0] ∧
      updateLRUFlag [page 10 0 0, page 11 0 0] 1 2 = some [page 10 0 0, page 11 0 1] ∧
      updateLRUFlag [page 10 0 0, page 11 0 1] 0 2 = some [page 10 0 2, page 11 0 1] ∧
      findOneToReplace (lruConfig 2) [page 10 0 2, page 11 0 1] 1 = some 1) :=
  lru_ordering_law (lruConfig 3) rfl rfl [page 1 0 4, page 2 0 9, page 3 0 1] 1 0 2 1
    rfl rfl (by decide) (by decide) (by decide) (by decide) (by decide) (by decide)
    (by decide)
    (by
      intro j e hje _
      match j, hje with
      | 0, h => cases h; decide
      | 1, h => cases h; decide
      | 2, h => cases h; decide
      | (n + 3), h => simp at h)

/-- C7, as stated, fails for `n = 1`: the entry installed into the full
one-slot TLB gets `FIFOFlag = 0`, not `n = 1`. -/
theorem fifo_sequence_counterexample :
    installAll (fifoConfig 1) [emptySlot] [page 10 7 0] = some [page 10 0 0] ∧
      (page 11 7 0).valid = true ∧
      updateTLB (fifoConfig 1) [page 10 0 0] (page 11 7 0) = some [page 11 0 0] ∧
      (page 11 0 0).FIFOFlag ≠ ((fifoConfig 1).TLBSize : Int) := by
  decide

/-- C7 (amended). Installing `n ≥ 1` valid entries by `updateTLB` into an
all-invalid TLB of `n` slots in a FIFO build puts the `j`-th entry in slot `j`
with `FIFOFlag = j`, whatever `FIFOFlag` it carried; one further install
replaces slot 0, with `FIFOFlag = n` when `n ≥ 2` and `FIFOFlag = 0` when
`n = 1`, and leaves the other slots as they were. -/
theorem fifo_sequence_numbers (cfg : Config) (hF : cfg.FIFO_REPLACE = true)
    (hL : cfg.LRU_REPLACE = false) (t0 es : List TranslationEntry)
    (E : TranslationEntry) (hpos : 1 ≤ cfg.TLBSize)
    (hmax : (cfg.TLBSize : Int) ≤ INT_MAX) (hlen : t0.length = cfg.TLBSize)
    (hinv : ∀ x ∈ t0, x.valid = false) (hes : es.length = cfg.TLBSize)
    (hval : ∀ x ∈ es, x.valid = true) :
    ∃ S, installAll cfg t0 es = some S ∧ S.length = cfg.TLBSize ∧
      (∀ (j : Nat) (e : TranslationEntry), es[j]? = some e →
        S[j]? = some { e with FIFOFlag := (j : Int) }) ∧
      installAll cfg t0 (es ++ [E]) = some (S.set 0
        { E with FIFOFlag := if cfg.TLBSize = 1 then 0 else (cfg.TLBSize : Int) }) := by
  obtain ⟨S, hS, hinst⟩ := installAll_installed cfg hF t0 es hlen hmax hinv hval (by omega)
  obtain ⟨_, hupd⟩ := install_into_full cfg hF hL t0 es S E hpos hmax hlen hes hval hinst
  refine ⟨S, hS, by rw [hinst.1, hlen], hinst.2.1, ?_⟩
  simp only [installAll, List.foldlM_append] at hS ⊢
  simp [hS, hupd]

/-- C7 (amended), concrete instance: `n = 4`, pages 10, 11, 12, 13 get
`FIFOFlag` 0, 1, 2, 3, and page 14 then replaces page 10 with `FIFOFlag = 4`. -/
theorem fifo_sequence_numbers_witness :
    (∃ S, installAll (fifoConfig 4) [emptySlot, emptySlot, emptySlot, emptySlot]
          [page 10 7 0, page 11 7 0, page 12 7 0, page 13 7 0] = some S ∧
        S.length = (fifoConfig 4).TLBSize ∧
        (∀ (j : Nat) (e : TranslationEntry),
          [page 10 7 0, page 11 7 0, page 12 7 0, page 13 7 0][j]? = some e →
          S[j]? = some { e with FIFOFlag := (j : Int) }) ∧
        installAll (fifoConfig 4) [emptySlot, emptySlot, emptySlot, emptySlot]
          ([page 10 7 0, page 11 7 0, page 12 7 0, page 13 7 0] ++ [page 14 7 0]) =
          some (S.set 0 { page 14 7 0 with FIFOFlag :=
            if (fifoConfig 4).TLBSize = 1 then 0 else ((fifoConfig 4).TLBSize : Int) })) ∧
      installAll (fifoConfig 4) [emptySlot, emptySlot, emptySlot, emptySlot]
          [page 10 7 0, page 11 7 0, page 12 7 0, page 13 7 0] =
        some [page 10 0 0, page 11 1 0, page 12 2 0, page 13 3 0] ∧
      installAll (fifoConfig 4) [emptySlot, emptySlot, emptySlot, emptySlot]
          [page 10 7 0, page 11 7 0, page 12 7 0, page 13 7 0, page 14 7 0] =
        some [page 14 4 0, page 11 1 0, page 12 2 0, page 13 3 0] :=
  ⟨fifo_sequence_numbers (fifoConfig 4) rfl rfl [emptySlot, emptySlot, emptySlot, emptySlot]
      [page 10 7 0, page 11 7 0, page 12 7 0, page 13 7 0] (page 14 7 0) (by decide)
      (by decide) rfl (by decide) rfl (by decide),
    by decide, by decide⟩

/-- C8. Register bounds: `ReadRegister` and `WriteRegister` fail their
assertion exactly when `num < 0` or `num ≥ NumTotalRegs`, and for every index
inside the range both succeed. -/
theorem register_bounds (L : RegLayout) (m : Machine) (num value : Int)
    (hlen : m.registers.length = L.NumTotalRegs) :
    (ReadRegister L m num = .error .assertionFailed ↔
      (num < 0 ∨ num ≥ (L.NumTotalRegs : Int))) ∧
    (WriteRegister L m num value = .error .assertionFailed ↔
      (num < 0 ∨ num ≥ (L.NumTotalRegs : Int))) ∧
    (0 ≤ num → num < (L.NumTotalRegs : Int) →
      (∃ v, ReadRegister L m num = .ok (v, m)) ∧
      (∃ m', WriteRegister L m num value = .ok m')) := by
  by_cases h : 0 ≤ num ∧ num < (L.NumTotalRegs : Int)
  · have hk : num.toNat < m.registers.length := by omega
    have hr : ReadRegister L m num = .ok (m.registers[num.toNat], m) := by
      simp [ReadRegister, h, regLoad_ok m num h.1 hk, Except.map]
    have hw : WriteRegister L m num value
        = .ok { m with registers := m.registers.set num.toNat value } := by
      simp [WriteRegister, h, regStore_ok m num value h.1 hk]
    refine ⟨?_, ?_, fun _ _ => ⟨⟨_, hr⟩, ⟨_, hw⟩⟩⟩
    · rw [hr]; constructor
      · intro h'; cases h'
      · intro h'; omega
    · rw [hw]; constructor
      · intro h'; cases h'
      · intro h'; omega
  · have hr : ReadRegister L m num = .error .assertionFailed := by
      simp only [ReadRegister, if_neg h]
    have hw : WriteRegister L m num value = .error .assertionFailed := by
      simp only [WriteRegister, if_neg h]
    refine ⟨?_, ?_, fun h0 h1 => absurd ⟨h0, h1⟩ h⟩
    · rw [hr]; exact ⟨fun _ => by omega, fun _ => rfl⟩
    · rw [hw]; exact ⟨fun _ => by omega, fun _ => rfl⟩

/-- C8, concrete instance: the 40-register machine at index 7. -/
theorem register_bounds_witness :
    (ReadRegister mipsLayout zeroMachine 7 = .error .assertionFailed ↔
      ((7 : Int) < 0 ∨ (7 : Int) ≥ (mipsLayout.NumTotalRegs : Int))) ∧
    (WriteRegister mipsLayout zeroMachine 7 5 = .error .assertionFailed ↔
      ((7 : Int) < 0 ∨ (7 : Int) ≥ (mipsLayout.NumTotalRegs : Int))) ∧
    ((0 : Int) ≤ 7 → (7 : Int) < (mipsLayout.NumTotalRegs : Int) →
      (∃ v, ReadRegister mipsLayout zeroMachine 7 = .ok (v, zeroMachine)) ∧
      (∃ m', WriteRegister mipsLayout zeroMachine 7 5 = .ok m')) :=
  register_bounds mipsLayout zeroMachine 7 5 (by decide)

/-- C9. For an in-range index `i`, `WriteRegister` succeeds, afterwards
`ReadRegister i` returns the value written, every other in-range register reads
what it read before, and the mode and the number of registers are unchanged;
`ReadRegister` returns the machine state it was given. -/
theorem register_frame (L : RegLayout) (m : Machine) (i v : Int)
    (hlen : m.registers.length = L.NumTotalRegs)
    (h0 : 0 ≤ i) (h1 : i < (L.NumTotalRegs : Int)) :
    (∃ m', WriteRegister L m i v = .ok m' ∧
      ReadRegister L m' i = .ok (v, m') ∧
      m'.status = m.status ∧ m'.registers.length = m.registers.length ∧
      (∀ j : Int, 0 ≤ j → j < (L.NumTotalRegs : Int) → j ≠ i →
        ∃ x, ReadRegister L m j = .ok (x, m) ∧ ReadRegister L m' j = .ok (x, m'))) ∧
    (∀ (j r : Int) (m2 : Machine), ReadRegister L m j = .ok (r, m2) → m2 = m) := by
  have hk : i.toNat < m.registers.length := by omega
  constructor
  · refine ⟨{ m with registers := m.registers.set i.toNat v }, ?_, ?_, rfl, by simp, ?_⟩
    · simp [WriteRegister, h0, h1, regStore_ok m i v h0 hk]
    · have hk' : i.toNat < (m.registers.set i.toNat v).length := by simpa using hk
      simp [ReadRegister, h0, h1, regLoad, Except.map, hk]
    · intro j hj0 hj1 hne
      have hjk : j.toNat < m.registers.length := by omega
      have hne' : i.toNat ≠ j.toNat := by omega
      refine ⟨m.registers[j.toNat], ?_, ?_⟩
      · simp [ReadRegister, hj0, hj1, regLoad_ok m j hj0 hjk, Except.map]
      · simp [ReadRegister, hj0, hj1, regLoad, Except.map, List.getElem?_set_ne hne',
          List.getElem?_eq_getElem hjk]
  · intro j r m2 h
    unfold ReadRegister at h
    split at h
    · cases hl : regLoad m j with
      | error e => rw [hl] at h; cases h
      | ok x => rw [hl] at h; simp [Except.map] at h; exact h.2.symm
    · cases h

/-- C9, concrete instance: writing 5 to register 7 of the 40-register machine. -/
theorem register_frame_witness :
    (∃ m', WriteRegister mipsLayout zeroMachine 7 5 = .ok m' ∧
      ReadRegister mipsLayout m' 7 = .ok (5, m') ∧
      m'.status = zeroMachine.status ∧
      m'.registers.length = zeroMachine.registers.length ∧
      (∀ j : Int, 0 ≤ j → j < (mipsLayout.NumTotalRegs : Int) → j ≠ 7 →
        ∃ x, ReadRegister mipsLayout zeroMachine j = .ok (x, zeroMachine) ∧
          ReadRegister mipsLayout m' j = .ok (x, m'))) ∧
    (∀ (j r : Int) (m2 : Machine),
      ReadRegister mipsLayout zeroMachine j = .ok (r, m2) → m2 = zeroMachine) :=
  register_frame mipsLayout zeroMachine 7 5 (by decide) (by decide) (by decide)

/-- C10, as stated, fails: on the machine reached from the all-zero one by
`WriteRegister(LoadReg, 39)` and `WriteRegister(LoadValueReg, 77)`, a page
fault with `badVAddr = 0x2000` reaches the handler with the `BadVAddr`
register reading 77, because the delayed load is flushed after `BadVAddrReg`
is written and its target is that register. -/
theorem raiseException_counterexample :
    (WriteRegister mipsLayout zeroMachine 37 39 >>= fun m1 =>
        WriteRegister mipsLayout m1 38 77) = .ok pendingBadVAddrMachine ∧
      exceptionEntry mipsLayout 0x2000 pendingBadVAddrMachine
        = .ok { registers := (List.replicate 40 0).set 39 77, status := .SystemMode } ∧
      ReadRegister mipsLayout
          { registers := (List.replicate 40 0).set 39 77, status := .SystemMode }
          mipsLayout.BadVAddrReg
        = .ok (77, { registers := (List.replicate 40 0).set 39 77, status := .SystemMode }) ∧
      (77 : Int) ≠ 0x2000 :=
  ⟨rfl, rfl, rfl, by decide⟩

/-- C10 (amended). Exception round trip: for every exception kind and every
`badVAddr`, on a machine whose pending delayed load targets an existing
register other than `BadVAddrReg`, `RaiseException` reaches the handler with
`BadVAddrReg` reading exactly `badVAddr` and the mode set to `SystemMode`, and
the state after the call is the handler's result with the mode set to
`UserMode`. -/
theorem raiseException_round_trip (L : RegLayout)
    (handler : ExceptionType → Machine → Machine) (which : ExceptionType)
    (badVAddr : Int) (m : Machine)
    (hlen : m.registers.length = L.NumTotalRegs)
    (hB : L.BadVAddrReg < L.NumTotalRegs) (hLR : L.LoadReg < L.NumTotalRegs)
    (hLV : L.LoadValueReg < L.NumTotalRegs)
    (hd1 : L.BadVAddrReg ≠ L.LoadReg) (hd2 : L.BadVAddrReg ≠ L.LoadValueReg)
    (ht : ∀ tgt : Int, m.registers[L.LoadReg]? = some tgt →
      0 ≤ tgt ∧ tgt < (L.NumTotalRegs : Int) ∧ tgt ≠ (L.BadVAddrReg : Int)) :
    ∃ m3, exceptionEntry L badVAddr m = .ok m3 ∧
      ReadRegister L m3 L.BadVAddrReg = .ok (badVAddr, m3) ∧
      m3.status = .SystemMode ∧
      RaiseException L handler which badVAddr m
        = .ok (setStatus .UserMode (handler which m3)) ∧
      (setStatus .UserMode (handler which m3)).status = .UserMode := by
  have hLRl : L.LoadReg < m.registers.length := by omega
  have hLVl : L.LoadValueReg < m.registers.length := by omega
  have hBl : L.BadVAddrReg < m.registers.length := by omega
  obtain ⟨ht0, ht1, ht2⟩ := ht _ (List.getElem?_eq_getElem hLRl)
  generalize htgt : m.registers[L.LoadReg] = tgt at ht0 ht1 ht2
  have htl : tgt.toNat < m.registers.length := by omega
  have htne : tgt.toNat ≠ L.BadVAddrReg := by omega
  let regs3 := (((m.registers.set L.BadVAddrReg badVAddr).set tgt.toNat
    m.registers[L.LoadValueReg]).set L.LoadReg 0).set L.LoadValueReg 0
  have hentry : exceptionEntry L badVAddr m
      = .ok { registers := regs3, status := .SystemMode } := by
    simp [exceptionEntry, DelayedLoad, regStore, regLoad, setStatus, hBl, hLRl, hLVl,
      List.getElem?_set_ne hd1, List.getElem?_set_ne hd2, List.getElem?_eq_getElem hLRl,
      List.getElem?_eq_getElem hLVl, htgt, ht0, htl, bind, Except.bind, pure, Except.pure,
      regs3]
  refine ⟨_, hentry, ?_, rfl, ?_, rfl⟩
  · have hread : regs3[L.BadVAddrReg]? = some badVAddr := by
      simp only [regs3]
      rw [List.getElem?_set_ne (Ne.symm hd2), List.getElem?_set_ne (Ne.symm hd1),
        List.getElem?_set_ne htne, List.getElem?_set_self hBl]
    simp [ReadRegister, regLoad, hB, hread, Except.map]
  · simp [RaiseException, hentry, bind, Except.bind, pure, Except.pure]

/-- C10 (amended), concrete instance: a page fault with `badVAddr = 0x2000` on
the 40-register machine with a pending load of 77 for register 5; the handler
sees register 5 holding 77 and `BadVAddr` holding `0x2000`. -/
theorem raiseException_round_trip_witness :
    (∃ m3, exceptionEntry mipsLayout 0x2000 pendingLoadMachine = .ok m3 ∧
      ReadRegister mipsLayout m3 mipsLayout.BadVAddrReg = .ok (0x2000, m3) ∧
      m3.status = .SystemMode ∧
      RaiseException mipsLayout (fun _ s => s) .PageFaultException 0x2000 pendingLoadMachine
        = .ok (setStatus .UserMode ((fun _ s => s) ExceptionType.PageFaultException m3)) ∧
      (setStatus .UserMode ((fun _ s => s) ExceptionType.PageFaultException m3)).status
        = .UserMode) ∧
    exceptionEntry mipsLayout 0x2000 pendingLoadMachine
      = .ok { registers := ((List.replicate 40 0).set 5 77).set 39 0x2000,
              status := .SystemMode } ∧
    RaiseException mipsLayout (fun _ s => s) .PageFaultException 0x2000 pendingLoadMachine
      = .ok { registers := ((List.replicate 40 0).set 5 77).set 39 0x2000,
              status := .UserMode } :=
  ⟨raiseException_round_trip mipsLayout (fun _ s => s) .PageFaultException 0x2000
    pendingLoadMachine (by decide) (by decide) (by decide) (by decide) (by decide)
    (by decide)
    (by
      intro tgt h
      have h' : tgt = 5 := by
        have : pendingLoadMachine.registers[mipsLayout.LoadReg]? = some 5 := by decide
        rw [this] at h; cases h; rfl
      subst h'; decide), rfl, rfl⟩

/-- C11. Victim choice depends only on the policy counters: on two arrays of
`len ≥ 1` slots whose `FIFOFlag` (in a FIFO build) or `LRUFlag` (in an LRU
build) agree slot by slot, `findOneToReplace` returns the same index, whatever
the other fields are. -/
theorem findOneToReplace_counters_only (cfg : Config) (t t' : List TranslationEntry)
    (type : Int) (hlen : t.length = replaceLen cfg type)
    (hpos : 1 ≤ replaceLen cfg type) :
    (cfg.FIFO_REPLACE = true → cfg.LRU_REPLACE = false →
      t.map TranslationEntry.FIFOFlag = t'.map TranslationEntry.FIFOFlag →
      ∃ i, findOneToReplace cfg t type = some i ∧ findOneToReplace cfg t' type = some i) ∧
    (cfg.FIFO_REPLACE = false → cfg.LRU_REPLACE = true →
      t.map TranslationEntry.LRUFlag = t'.map TranslationEntry.LRUFlag →
      ∃ i, findOneToReplace cfg t type = some i ∧ findOneToReplace cfg t' type = some i) := by
  obtain ⟨i, hi, _⟩ := findOneToReplace_bound cfg t type (by omega) (by omega)
  refine ⟨fun hF hL h => ⟨i, hi, ?_⟩, fun hF hL h => ⟨i, hi, ?_⟩⟩
  · rw [← hi]
    simp only [findOneToReplace, findOneToReplaceBody_fifo cfg hF hL,
      minBody_congr _ t t' h]
  · rw [← hi]
    simp only [findOneToReplace, findOneToReplaceBody_lru cfg hF hL,
      minBody_congr _ t t' h]

/-- C11, concrete instance: two FIFO arrays with counters 5, 2, 2 that differ
in every other field give the same victim. -/
theorem findOneToReplace_counters_only_witness :
    ∃ i, findOneToReplace (fifoConfig 3) [page 1 5 0, page 2 2 0, page 3 2 0] 1 = some i ∧
      findOneToReplace (fifoConfig 3)
        [{ emptySlot with FIFOFlag := 5 }, page 7 2 9, page 8 2 4] 1 = some i :=
  (findOneToReplace_counters_only (fifoConfig 3) [page 1 5 0, page 2 2 0, page 3 2 0]
    [{ emptySlot with FIFOFlag := 5 }, page 7 2 9, page 8 2 4] 1 (by decide)
    (by decide)).1 rfl rfl (by decide)

/-- C12. Allocator exclusivity: after every sequence of `allocate` and `free`
calls on an allocator of `n` frames that started with every frame free, the
live results (returned by `allocate` and not freed since) are pairwise
different and are exactly the frames marked allocated; a further `allocate`
that succeeds returns the lowest free frame, which is not live, and marks it;
`allocate` fails exactly when no frame is free. Neither `allocate` nor `free`
of a live frame stops the run. -/
theorem allocator_exclusive (n : Nat) (ops : List FrameOp) (st : Bitmap × List Nat)
    (hrun : frameRun (freshFrames n) ops = some st) :
    st.1.length = n ∧ st.2.Nodup ∧ (∀ f : Nat, f ∈ st.2 ↔ st.1[f]? = some true) ∧
    (∀ (f : Nat) (b1 : Bitmap), findAvailablePageFrame st.1 = (some f, b1) →
      f ∉ st.2 ∧ st.1[f]? = some false ∧ (∀ j : Nat, j < f → st.1[j]? = some true) ∧
      b1 = st.1.set f true) ∧
    ((findAvailablePageFrame st.1).1 = none ↔ ∀ j : Nat, j < n → st.1[j]? = some true) ∧
    (∃ st1, frameStep st .allocate = some st1) ∧
    (∀ f ∈ st.2, ∃ st1, frameStep st (.free f) = some st1) := by
  obtain ⟨hlen, hnd, hmem⟩ := frameRun_inv n ops _ st (freshFrames_inv n) hrun
  refine ⟨hlen, hnd, hmem, ?_, ?_, ?_, ?_⟩
  · intro f b1 hf
    obtain ⟨h1, h2, h3⟩ := findAvailablePageFrame_some st.1 f b1 hf
    refine ⟨?_, h1, h2, h3⟩
    intro hin
    have := (hmem f).mp hin
    rw [h1] at this; cases this
  · rw [findAvailablePageFrame_none, hlen]
  · simp only [frameStep]
    cases hf : findAvailablePageFrame st.1 with
    | mk r b1 => cases r <;> exact ⟨_, rfl⟩
  · intro f hf
    have hb := (hmem f).mp hf
    exact ⟨(st.1.set f false, st.2.erase f), by simp [frameStep, Bitmap.free, hb]⟩

/-- C12, concrete instance: three frames; two allocations, frame 0 freed, one
more allocation, which returns frame 0 again. -/
theorem allocator_exclusive_witness :
    frameRun (freshFrames 3) [.allocate, .allocate, .free 0, .allocate]
      = some ([true, true, false], [0, 1]) ∧
    ([true, true, false] : Bitmap).length = 3 ∧ ([0, 1] : List Nat).Nodup ∧
    (∀ f : Nat, f ∈ ([0, 1] : List Nat) ↔ ([true, true, false] : Bitmap)[f]? = some true) ∧
    (∀ (f : Nat) (b1 : Bitmap), findAvailablePageFrame [true, true, false] = (some f, b1) →
      f ∉ ([0, 1] : List Nat) ∧ ([true, true, false] : Bitmap)[f]? = some false ∧
      (∀ j : Nat, j < f → ([true, true, false] : Bitmap)[j]? = some true) ∧
      b1 = ([true, true, false] : Bitmap).set f true) ∧
    ((findAvailablePageFrame [true, true, false]).1 = none ↔
      ∀ j : Nat, j < 3 → ([true, true, false] : Bitmap)[j]? = some true) ∧
    (∃ st1, frameStep ([true, true, false], [0, 1]) .allocate = some st1) ∧
    (∀ f ∈ ([0, 1] : List Nat),
      ∃ st1, frameStep ([true, true, false], [0, 1]) (.free f) = some st1) :=
  ⟨by decide, allocator_exclusive 3 [.allocate, .allocate, .free 0, .allocate]
    ([true, true, false], [0, 1]) (by decide)⟩

/-- C13, as stated, fails: in a FIFO TLB of `n = 2` slots the fourth install
leaves a valid entry with `FIFOFlag = 3`, which is above `n`. -/
theorem fifo_counter_cap_counterexample :
    installAll (fifoConfig 2) [emptySlot, emptySlot]
        [page 10 7 0, page 11 7 0, page 12 7 0, page 13 7 0]
      = some [page 12 2 0, page 13 3 0] ∧
      (page 13 3 0).valid = true ∧
      ¬ ((page 13 3 0).FIFOFlag ≤ ((fifoConfig 2).TLBSize : Int)) := by
  decide

/-- C13 (amended). Counter bound: after `k` valid-entry installs by
`updateTLB` in a FIFO build, starting from an all-invalid TLB of `n ≥ 1` slots,
with `n = 1` or `k ≤ INT_MAX + 1`, every valid entry has
`0 ≤ FIFOFlag < k`: the counters are bounded by the number of installs made,
not by `n`. -/
theorem fifo_counter_bound (cfg : Config) (hF : cfg.FIFO_REPLACE = true)
    (t0 es : List TranslationEntry) (hlen : t0.length = cfg.TLBSize)
    (hpos : 1 ≤ cfg.TLBSize) (hinv : ∀ x ∈ t0, x.valid = false)
    (hvalid : ∀ e ∈ es, e.valid = true)
    (hk : cfg.TLBSize = 1 ∨ (es.length : Int) ≤ INT_MAX + 1) :
    ∃ S, installAll cfg t0 es = some S ∧ S.length = cfg.TLBSize ∧
      ∀ e ∈ S, e.valid = true →
        0 ≤ e.FIFOFlag ∧ e.FIFOFlag < (es.length : Int) ∧ e.FIFOFlag ≤ INT_MAX := by
  obtain ⟨S, stamps, _, hall, hSlen, _, hval, _⟩ :=
    fifo_run cfg hF t0 es hlen (by omega) hinv hvalid hk
  refine ⟨S, hall, hSlen, ?_⟩
  intro e he hv
  obtain ⟨j, hj⟩ := List.mem_iff_getElem?.mp he
  obtain ⟨s, _, hs, h0, hfs, hfm⟩ := hval j e hj hv
  exact ⟨h0, by omega, hfm⟩

/-- C13 (amended), concrete instance: two slots, four installs, counters 2
and 3. -/
theorem fifo_counter_bound_witness :
    (∃ S, installAll (fifoConfig 2) [emptySlot, emptySlot]
        [page 10 7 0, page 11 7 0, page 12 7 0, page 13 7 0] = some S ∧
      S.length = (fifoConfig 2).TLBSize ∧
      ∀ e ∈ S, e.valid = true →
        0 ≤ e.FIFOFlag ∧
        e.FIFOFlag < ([page 10 7 0, page 11 7 0, page 12 7 0, page 13 7 0].length : Int) ∧
        e.FIFOFlag ≤ INT_MAX) ∧
    installAll (fifoConfig 2) [emptySlot, emptySlot]
        [page 10 7 0, page 11 7 0, page 12 7 0, page 13 7 0]
      = some [page 12 2 0, page 13 3 0] :=
  ⟨fifo_counter_bound (fifoConfig 2) rfl [emptySlot, emptySlot]
    [page 10 7 0, page 11 7 0, page 12 7 0, page 13 7 0] rfl (by decide) (by decide)
    (by decide) (by decide), by decide⟩

/-- C14, as stated, fails: in an LRU build `updateTLB` on the full TLB with
`LRUFlag` 5 and 6 installs the new entry in slot 0 with the `LRUFlag = 0` it
carried, not `1 + 6`, and the next `updateTLB` picks slot 0 again although the
entry in slot 1 is valid. -/
theorem updateTLB_lru_counterexample :
    updateTLB (lruConfig 2) [page 10 0 5, page 11 0 6] (page 12 0 0)
        = some [page 12 0 0, page 11 0 6] ∧
      (page 11 0 6).valid = true ∧
      (page 12 0 0).LRUFlag ≠ 1 + (page 11 0 6).LRUFlag ∧
      updateTLBSlot (lruConfig 2) [page 12 0 0, page 11 0 6] = some 0 := by
  decide

/-- C14 (amended). In an LRU build `updateTLB` installs the entry with the
`LRUFlag` it carried and applies no counter update. Once `updateLRUFlag` is
applied to the written slot, its `LRUFlag` is `1 + max M (-1)` for the largest
`LRUFlag` `M` of the other valid entries (`0` when there is none) and exceeds
that of every other valid entry, and the next `updateTLB` writes another slot;
this for a valid entry, a TLB of at least two slots, and other valid entries
with `LRUFlag < INT_MAX`. -/
theorem updateTLB_lru_install (cfg : Config) (hF : cfg.FIFO_REPLACE = false)
    (hL : cfg.LRU_REPLACE = true) (tlb : List TranslationEntry)
    (entry : TranslationEntry) (hlen : tlb.length = cfg.TLBSize)
    (hsize : 2 ≤ cfg.TLBSize) (hvalid : entry.valid = true)
    (hno : ∀ (j : Nat) (e : TranslationEntry), tlb[j]? = some e → e.valid = true →
      e.LRUFlag < INT_MAX) :
    ∃ (i : Nat) (c : Int), updateTLBSlot cfg tlb = some i ∧
      updateTLB cfg tlb entry = some (tlb.set i entry) ∧
      updateLRUFlag (tlb.set i entry) i cfg.TLBSize
        = some (tlb.set i { entry with LRUFlag := c }) ∧
      (∀ M : Int, IsMaxOther TranslationEntry.LRUFlag tlb i M → c = 1 + max M (-1)) ∧
      (NoOtherValid tlb i → c = 0) ∧
      (∀ (j : Nat) (e : TranslationEntry), tlb[j]? = some e → e.valid = true → j ≠ i →
        e.LRUFlag < c) ∧
      (∃ i2, updateTLBSlot cfg (tlb.set i { entry with LRUFlag := c }) = some i2 ∧
        i2 ≠ i) := by
  have hIM : INT_MAX = 2147483647 := rfl
  obtain ⟨i, hslot, hi, _, _⟩ := updateTLBSlot_spec cfg tlb hlen (by omega)
  have hil : i < tlb.length := by omega
  have hil' : i < (tlb.set i entry).length := by simpa using hil
  have hlen' : (tlb.set i entry).length = cfg.TLBSize := by simpa using hlen
  obtain ⟨num, hupd, h1, h2, h3⟩ := updateLRUFlag_value (tlb.set i entry) i hil'
  rw [hlen'] at hupd
  have h2' : ∀ (j : Nat) (e : TranslationEntry), tlb[j]? = some e → e.valid = true →
      j ≠ i → e.LRUFlag ≤ num := by
    intro j e hje hv hne
    exact h2 j e (by rw [List.getElem?_set_ne (Ne.symm hne)]; exact hje) hv hne
  have h3' : num = -1 ∨ ∃ (j : Nat) (e : TranslationEntry),
      tlb[j]? = some e ∧ e.valid = true ∧ j ≠ i ∧ e.LRUFlag = num := by
    rcases h3 with h3 | ⟨j, e, hje, hv, hne, hf⟩
    · exact Or.inl h3
    · rw [List.getElem?_set_ne (Ne.symm hne)] at hje
      exact Or.inr ⟨j, e, hje, hv, hne, hf⟩
  have hlt : num < INT_MAX := by
    rcases h3' with h | ⟨j, e, hje, hv, _, hf⟩
    · omega
    · rw [← hf]; exact hno j e hje hv
  have hw : wrapInt (num + 1) = num + 1 :=
    wrapInt_of_range _ (by unfold INT_MIN; omega) (by omega)
  have hupd2 : updateLRUFlag (tlb.set i entry) i cfg.TLBSize
      = some (tlb.set i { entry with LRUFlag := num + 1 }) := by
    rw [hupd, hw]; simp
  refine ⟨i, num + 1, hslot, by simp [updateTLB, hslot, hil, hF], hupd2, ?_, ?_, ?_, ?_⟩
  · intro M ⟨⟨j, e, hje, hv, hne, hf⟩, hub⟩
    have hle := h2' j e hje hv hne
    rcases h3' with h | ⟨j', e', hje', hv', hne', hf'⟩
    · rw [max_def]; split <;> omega
    · have := hub j' e' hje' hv' hne'
      rw [max_def]; split <;> omega
  · intro hN
    rcases h3' with h | ⟨j, e, hje, hv, hne, _⟩
    · omega
    · have := hN j e hje hne; rw [hv] at this; cases this
  · intro j e hje hv hne
    have := h2' j e hje hv hne; omega
  · -- the next refill
    have hlen2 : (tlb.set i { entry with LRUFlag := num + 1 }).length = cfg.TLBSize := by
      simpa using hlen
    have hti : (tlb.set i { entry with LRUFlag := num + 1 })[i]?
        = some { entry with LRUFlag := num + 1 } := List.getElem?_set_self hil
    obtain ⟨i2, hslot2, _, hfirst2, hvictim2⟩ :=
      updateTLBSlot_spec cfg (tlb.set i { entry with LRUFlag := num + 1 }) hlen2 (by omega)
    refine ⟨i2, hslot2, ?_⟩
    intro heq
    subst heq
    by_cases hex : ∃ (j : Nat) (e : TranslationEntry),
        (tlb.set i2 { entry with LRUFlag := num + 1 })[j]? = some e ∧ e.valid = false
    · obtain ⟨⟨e, he, hev⟩, _⟩ := hfirst2 hex
      rw [hti] at he; cases he
      rw [hvalid] at hev; cases hev
    · have hall : ∀ (j : Nat) (e : TranslationEntry),
          (tlb.set i2 { entry with LRUFlag := num + 1 })[j]? = some e → e.valid = true := by
        intro j e hje
        by_contra hne
        exact hex ⟨j, e, hje, by simpa using hne⟩
      have hrange : ∀ e ∈ tlb.set i2 { entry with LRUFlag := num + 1 },
          e.LRUFlag ≤ INT_MAX := by
        intro e he
        obtain ⟨j, hj⟩ := List.mem_iff_getElem?.mp he
        by_cases hji : j = i2
        · subst hji; rw [hti] at hj; cases hj; show num + 1 ≤ INT_MAX; omega
        · have hv := hall j e hj
          rw [List.getElem?_set_ne (Ne.symm hji)] at hj
          have := hno j e hj hv; omega
      obtain ⟨i', ei, hfind, hei, hmin, _⟩ := findOneToReplace_lru_min cfg hF hL
        (tlb.set i2 { entry with LRUFlag := num + 1 }) 1
        (by rw [replaceLen_tlb]; exact hlen2) (by omega) hrange
      rw [hvictim2 hall] at hfind; cases hfind
      rw [hti] at hei; cases hei
      -- another slot exists and holds a smaller counter
      have hother : ∃ j : Nat, j ≠ i2 ∧ j < tlb.length := by
        by_cases h0 : i2 = 0
        · exact ⟨1, by omega, by omega⟩
        · exact ⟨0, fun h => h0 h.symm, by omega⟩
      obtain ⟨j, hji, hjl⟩ := hother
      have hget : (tlb.set i2 { entry with LRUFlag := num + 1 })[j]? = some tlb[j] := by
        rw [List.getElem?_set_ne (Ne.symm hji)]; exact List.getElem?_eq_getElem hjl
      have hvj := hall j _ hget
      have hle := h2' j tlb[j] (List.getElem?_eq_getElem hjl) hvj hji
      have hm := hmin j _ hget
      have hm' : num + 1 ≤ tlb[j].LRUFlag := hm
      omega

/-- C14 (amended), concrete instance: the full two-slot LRU TLB with `LRUFlag`
5 and 6, refilled with page 12. -/
theorem updateTLB_lru_install_witness :
    (∃ (i : Nat) (c : Int), updateTLBSlot (lruConfig 2) [page 10 0 5, page 11 0 6] = some i ∧
      updateTLB (lruConfig 2) [page 10 0 5, page 11 0 6] (page 12 0 0)
        = some ([page 10 0 5, page 11 0 6].set i (page 12 0 0)) ∧
      updateLRUFlag ([page 10 0 5, page 11 0 6].set i (page 12 0 0)) i (lruConfig 2).TLBSize
        = some ([page 10 0 5, page 11 0 6].set i { page 12 0 0 with LRUFlag := c }) ∧
      (∀ M : Int, IsMaxOther TranslationEntry.LRUFlag [page 10 0 5, page 11 0 6] i M →
        c = 1 + max M (-1)) ∧
      (NoOtherValid [page 10 0 5, page 11 0 6] i → c = 0) ∧
      (∀ (j : Nat) (e : TranslationEntry), [page 10 0 5, page 11 0 6][j]? = some e →
        e.valid = true → j ≠ i → e.LRUFlag < c) ∧
      (∃ i2, updateTLBSlot (lruConfig 2)
          ([page 10 0 5, page 11 0 6].set i { page 12 0 0 with LRUFlag := c }) = some i2 ∧
        i2 ≠ i)) ∧
    updateLRUFlag [page 12 0 0, page 11 0 6] 0 2 = some [page 12 0 7, page 11 0 6] ∧
    updateTLBSlot (lruConfig 2) [page 12 0 7, page 11 0 6] = some 1 :=
  ⟨updateTLB_lru_install (lruConfig 2) rfl rfl [page 10 0 5, page 11 0 6] (page 12 0 0)
    rfl (by decide) rfl
    (by
      intro j e hje _
      match j, hje with
      | 0, h => cases h; decide
      | 1, h => cases h; decide
      | (n + 2), h => simp at h),
    by decide, by decide⟩

/-- C15. Mapping uniqueness is preserved by refill: when at most one valid
entry of the TLB maps each pair of `tID` and `vpn`, and no valid entry of the
TLB maps the pair of the new entry, `updateTLB` succeeds and the TLB afterwards
again has at most one valid entry per pair. -/
theorem updateTLB_preserves_uniqueMapping (cfg : Config) (tlb : List TranslationEntry)
    (entry : TranslationEntry) (hlen : tlb.length = cfg.TLBSize)
    (hpos : 0 < cfg.TLBSize) (huniq : UniqueMapping tlb)
    (hnew : ∀ (j : Nat) (e : TranslationEntry), tlb[j]? = some e → e.valid = true →
      ¬ (e.tID = entry.tID ∧ e.vpn = entry.vpn)) :
    ∃ tlb', updateTLB cfg tlb entry = some tlb' ∧ UniqueMapping tlb' := by
  obtain ⟨i, v, _, hi, hupd, _⟩ := updateTLB_shape cfg tlb entry hlen hpos
  have hil : i < tlb.length := by omega
  refine ⟨_, hupd, ?_⟩
  intro a b ea eb ha hb hva hvb htid hvpn
  by_cases hai : a = i
  · by_cases hbi : b = i
    · rw [hai, hbi]
    · subst hai
      rw [List.getElem?_set_self hil] at ha; cases ha
      rw [List.getElem?_set_ne (Ne.symm hbi)] at hb
      exact absurd ⟨htid.symm, hvpn.symm⟩ (hnew b eb hb hvb)
  · rw [List.getElem?_set_ne (Ne.symm hai)] at ha
    by_cases hbi : b = i
    · subst hbi
      rw [List.getElem?_set_self hil] at hb; cases hb
      exact absurd ⟨htid, hvpn⟩ (hnew a ea ha hva)
    · rw [List.getElem?_set_ne (Ne.symm hbi)] at hb
      exact huniq a b ea eb ha hb hva hvb htid hvpn

/-- C15, concrete instance: a full two-slot FIFO TLB mapping pages 10 and 11,
refilled with page 12. -/
theorem updateTLB_preserves_uniqueMapping_witness :
    (∃ tlb', updateTLB (fifoConfig 2) [page 10 0 0, page 11 1 0] (page 12 7 0) = some tlb' ∧
      UniqueMapping tlb') ∧
    updateTLB (fifoConfig 2) [page 10 0 0, page 11 1 0] (page 12 7 0)
      = some [page 12 2 0, page 11 1 0] :=
  ⟨updateTLB_preserves_uniqueMapping (fifoConfig 2) [page 10 0 0, page 11 1 0]
    (page 12 7 0) rfl (by decide)
    (by
      intro a b ea eb ha hb _ _ _ hvpn
      match a, b, ha, hb with
      | 0, 0, _, _ => rfl
      | 1, 1, _, _ => rfl
      | 0, 1, h1, h2 => cases h1; cases h2; exact absurd hvpn (by decide)
      | 1, 0, h1, h2 => cases h1; cases h2; exact absurd hvpn (by decide)
      | (n + 2), _, h1, _ => simp at h1
      | 0, (n + 2), _, h2 => simp at h2
      | 1, (n + 2), _, h2 => simp at h2)
    (by
      intro j e hje _ h
      match j, hje with
      | 0, h1 => cases h1; exact absurd h.2 (by decide)
      | 1, h1 => cases h1; exact absurd h.2 (by decide)
      | (n + 2), h1 => simp at h1),
    by decide⟩

/-- C16. General FIFO eviction order: after every sequence of valid-entry
installs by `updateTLB` in a FIFO build from an all-invalid TLB (no counter
overflowing: one slot, or at most `INT_MAX + 1` installs), the `FIFOFlag`
values of the valid entries are pairwise distinct, and when the TLB is full
the next `updateTLB` overwrites the slot whose entry was installed earliest
among the resident ones, and no other slot. -/
theorem fifo_eviction_order (cfg : Config) (hF : cfg.FIFO_REPLACE = true)
    (hL : cfg.LRU_REPLACE = false) (t0 es : List TranslationEntry)
    (E : TranslationEntry) (hlen : t0.length = cfg.TLBSize)
    (hpos : 1 ≤ cfg.TLBSize) (hinv : ∀ x ∈ t0, x.valid = false)
    (hvalid : ∀ e ∈ es, e.valid = true)
    (hk : cfg.TLBSize = 1 ∨ (es.length : Int) ≤ INT_MAX + 1) :
    ∃ (S : List TranslationEntry) (stamps : List (Option Nat)),
      installFrom cfg 0 (freshStamps t0) es = some (S, stamps) ∧
      installAll cfg t0 es = some S ∧
      (∀ (i j : Nat) (ei ej : TranslationEntry), S[i]? = some ei → S[j]? = some ej →
        ei.valid = true → ej.valid = true → i ≠ j → ei.FIFOFlag ≠ ej.FIFOFlag) ∧
      ((∀ (j : Nat) (e : TranslationEntry), S[j]? = some e → e.valid = true) →
        ∃ (i ki : Nat) (S' : List TranslationEntry),
          updateTLBSlot cfg S = some i ∧ stamps[i]? = some (some ki) ∧
          (∀ (j kj : Nat), stamps[j]? = some (some kj) → ki ≤ kj) ∧
          updateTLB cfg S E = some S' ∧
          (∀ j : Nat, j ≠ i → S'[j]? = S[j]?) ∧
          ∃ v, S'[i]? = some { E with FIFOFlag := v }) := by
  obtain ⟨S, stamps, hrun, hall, hSlen, hstlen, hval, hstamped, hmono, hinj⟩ :=
    fifo_run cfg hF t0 es hlen (by omega) hinv hvalid hk
  refine ⟨S, stamps, hrun, hall, ?_, ?_⟩
  · intro i j ei ej hi hj hvi hvj hne heq
    obtain ⟨si, hsi, _⟩ := hval i ei hi hvi
    obtain ⟨sj, hsj, _⟩ := hval j ej hj hvj
    rcases Nat.lt_trichotomy si sj with h | h | h
    · have := hmono i j si sj ei ej hi hj hvi hvj hsi hsj h; omega
    · subst h; exact hne (hinj i j si hsi hsj)
    · have := hmono j i sj si ej ei hj hi hvj hvi hsj hsi h; omega
  · intro hfull
    obtain ⟨i, v, hslot, hi, hupd, _⟩ := updateTLB_shape cfg S E hSlen (by omega)
    obtain ⟨i', hslot', _, _, hvictim⟩ := updateTLBSlot_spec cfg S hSlen (by omega)
    rw [hslot] at hslot'; cases hslot'
    have hfind := hvictim hfull
    have hrange : ∀ e ∈ S, e.FIFOFlag ≤ INT_MAX := by
      intro e he
      obtain ⟨j, hj⟩ := List.mem_iff_getElem?.mp he
      obtain ⟨_, _, _, _, _, hfm⟩ := hval j e hj (hfull j e hj)
      exact hfm
    obtain ⟨i2, ei, hfind2, hei, hmin, _⟩ := findOneToReplace_fifo_min cfg hF hL S 1
      (by rw [replaceLen_tlb]; exact hSlen) (by omega) hrange
    rw [hfind] at hfind2; cases hfind2
    obtain ⟨ki, hki, _⟩ := hval i ei hei (hfull i ei hei)
    have hiS : i < S.length := by omega
    refine ⟨i, ki, _, hslot, hki, ?_, hupd, ?_, ⟨v, List.getElem?_set_self hiS⟩⟩
    · intro j kj hkj
      by_contra hlt
      obtain ⟨ej, hej, hvj⟩ := hstamped j kj hkj
      have h1 := hmono j i kj ki ej ei hej hei hvj (hfull i ei hei) hkj hki (by omega)
      have h2 := hmin j ej hej
      omega
    · intro j hne
      rw [List.getElem?_set_ne (Ne.symm hne)]

/-- C16, concrete instance: two slots, installs 0, 1, 2 (pages 10, 11, 12);
slot 1 holds install 1, the earliest resident, and page 13 replaces it. -/
theorem fifo_eviction_order_witness :
    (∃ (S : List TranslationEntry) (stamps : List (Option Nat)),
      installFrom (fifoConfig 2) 0 (freshStamps [emptySlot, emptySlot])
        [page 10 7 0, page 11 7 0, page 12 7 0] = some (S, stamps) ∧
      installAll (fifoConfig 2) [emptySlot, emptySlot]
        [page 10 7 0, page 11 7 0, page 12 7 0] = some S ∧
      (∀ (i j : Nat) (ei ej : TranslationEntry), S[i]? = some ei → S[j]? = some ej →
        ei.valid = true → ej.valid = true → i ≠ j → ei.FIFOFlag ≠ ej.FIFOFlag) ∧
      ((∀ (j : Nat) (e : TranslationEntry), S[j]? = some e → e.valid = true) →
        ∃ (i ki : Nat) (S' : List TranslationEntry),
          updateTLBSlot (fifoConfig 2) S = some i ∧ stamps[i]? = some (some ki) ∧
          (∀ (j kj : Nat), stamps[j]? = some (some kj) → ki ≤ kj) ∧
          updateTLB (fifoConfig 2) S (page 13 7 0) = some S' ∧
          (∀ j : Nat, j ≠ i → S'[j]? = S[j]?) ∧
          ∃ v, S'[i]? = some { page 13 7 0 with FIFOFlag := v })) ∧
    installFrom (fifoConfig 2) 0 (freshStamps [emptySlot, emptySlot])
        [page 10 7 0, page 11 7 0, page 12 7 0]
      = some ([page 12 2 0, page 11 1 0], [some 2, some 1]) ∧
    updateTLB (fifoConfig 2) [page 12 2 0, page 11 1 0] (page 13 7 0)
      = some [page 12 2 0, page 13 3 0] :=
  ⟨fifo_eviction_order (fifoConfig 2) rfl rfl [emptySlot, emptySlot]
    [page 10 7 0, page 11 7 0, page 12 7 0] (page 13 7 0) rfl (by decide) (by decide)
    (by decide) (by decide), by decide, by decide⟩

/-- C17. `updateTLB` changes exactly one slot: it succeeds on a TLB of
`TLBSize ≥ 1` slots, keeps the number of slots, and every slot other than the
one it writes holds afterwards the entry it held before. For `pos < len`,
`updateFIFOFlag` and `updateLRUFlag` succeed, keep the number of slots and
every other slot, and change in slot `pos` only the field `FIFOFlag`,
respectively `LRUFlag`. -/
theorem updateTLB_frame (cfg : Config) (tlb : List TranslationEntry)
    (entry : TranslationEntry) (pos : Nat) (hlen : tlb.length = cfg.TLBSize)
    (hpos : 0 < cfg.TLBSize) (hp : pos < tlb.length) :
    (∃ i tlb', updateTLBSlot cfg tlb = some i ∧ updateTLB cfg tlb entry = some tlb' ∧
      tlb'.length = tlb.length ∧ ∀ j : Nat, j ≠ i → tlb'[j]? = tlb[j]?) ∧
    (∃ (t' : List TranslationEntry) (v : Int),
      updateFIFOFlag tlb pos tlb.length = some t' ∧ t'.length = tlb.length ∧
      (∀ j : Nat, j ≠ pos → t'[j]? = tlb[j]?) ∧
      t'[pos]? = some { tlb[pos] with FIFOFlag := v }) ∧
    (∃ (t' : List TranslationEntry) (v : Int),
      updateLRUFlag tlb pos tlb.length = some t' ∧ t'.length = tlb.length ∧
      (∀ j : Nat, j ≠ pos → t'[j]? = tlb[j]?) ∧
      t'[pos]? = some { tlb[pos] with LRUFlag := v }) := by
  refine ⟨?_, updateFIFOFlag_frame tlb pos hp, updateLRUFlag_frame tlb pos hp⟩
  obtain ⟨i, v, hslot, _, hupd, _⟩ := updateTLB_shape cfg tlb entry hlen hpos
  refine ⟨i, _, hslot, hupd, by simp, ?_⟩
  intro j hne
  rw [List.getElem?_set_ne (Ne.symm hne)]

/-- C17, concrete instance: a full two-slot FIFO TLB and `pos = 1`. -/
theorem updateTLB_frame_witness :
    (∃ i tlb', updateTLBSlot (fifoConfig 2) [page 10 0 3, page 11 1 4] = some i ∧
      updateTLB (fifoConfig 2) [page 10 0 3, page 11 1 4] (page 12 7 0) = some tlb' ∧
      tlb'.length = [page 10 0 3, page 11 1 4].length ∧
      ∀ j : Nat, j ≠ i → tlb'[j]? = [page 10 0 3, page 11 1 4][j]?) ∧
    (∃ (t' : List TranslationEntry) (v : Int),
      updateFIFOFlag [page 10 0 3, page 11 1 4] 1 [page 10 0 3, page 11 1 4].length
        = some t' ∧
      t'.length = [page 10 0 3, page 11 1 4].length ∧
      (∀ j : Nat, j ≠ 1 → t'[j]? = [page 10 0 3, page 11 1 4][j]?) ∧
      t'[1]? = some { page 11 1 4 with FIFOFlag := v }) ∧
    (∃ (t' : List TranslationEntry) (v : Int),
      updateLRUFlag [page 10 0 3, page 11 1 4] 1 [page 10 0 3, page 11 1 4].length
        = some t' ∧
      t'.length = [page 10 0 3, page 11 1 4].length ∧
      (∀ j : Nat, j ≠ 1 → t'[j]? = [page 10 0 3, page 11 1 4][j]?) ∧
      t'[1]? = some { page 11 1 4 with LRUFlag := v }) :=
  updateTLB_frame (fifoConfig 2) [page 10 0 3, page 11 1 4] (page 12 7 0) 1 rfl
    (by decide) (by decide)

/-- C18. Slot index stays in bounds: on an array of `len ≥ 1` slots
`findOneToReplace` returns an index below `len`, and on a TLB of
`TLBSize ≥ 1` slots the slot `updateTLB` writes is below `TLBSize`, so that
`updateTLB` never takes the out-of-range branch and returns a TLB. This holds
whichever of `FIFO_REPLACE` and `LRU_REPLACE` are defined. -/
theorem slot_index_in_bounds (cfg : Config) (t : List TranslationEntry) (type : Int)
    (tlb : List TranslationEntry) (entry : TranslationEntry)
    (hlen : t.length = replaceLen cfg type) (hpos : 1 ≤ replaceLen cfg type)
    (htlb : tlb.length = cfg.TLBSize) (hsize : 1 ≤ cfg.TLBSize) :
    (∃ i, findOneToReplace cfg t type = some i ∧ i < replaceLen cfg type) ∧
    (∃ i tlb', updateTLBSlot cfg tlb = some i ∧ i < cfg.TLBSize ∧
      updateTLB cfg tlb entry = some tlb') := by
  refine ⟨findOneToReplace_bound cfg t type (by omega) (by omega), ?_⟩
  obtain ⟨i, v, hslot, hi, hupd, _⟩ := updateTLB_shape cfg tlb entry htlb (by omega)
  exact ⟨i, _, hslot, hi, hupd⟩

/-- C18, concrete instance: a full two-slot LRU TLB. -/
theorem slot_index_in_bounds_witness :
    (∃ i, findOneToReplace (lruConfig 2) [page 1 0 4, page 2 0 9] 1 = some i ∧
      i < replaceLen (lruConfig 2) 1) ∧
    (∃ i tlb', updateTLBSlot (lruConfig 2) [page 1 0 4, page 2 0 9] = some i ∧
      i < (lruConfig 2).TLBSize ∧
      updateTLB (lruConfig 2) [page 1 0 4, page 2 0 9] (page 3 0 0) = some tlb') :=
  slot_index_in_bounds (lruConfig 2) [page 1 0 4, page 2 0 9] 1 [page 1 0 4, page 2 0 9]
    (page 3 0 0) (by decide) (by decide) rfl (by decide)

end Nachos
